import Mathlib

/-!
Verification of the AccountingLedger core (ledger aggregation and consistency
engine) against its natural-language specification.

The JavaScript sources are shallowly embedded: numbers become `Rat` (`ℚ`)
with `Option ℚ` where a JS value can be `NaN`/`undefined`, objects become
structures, in-place mutation of the shared `state` object becomes explicit
state passing, and each asynchronous store write is recorded in an explicit
write log together with its success flag.  String comparison on names
uses the kernel-computable models `jsLower`/`jsTrim` of JavaScript
`toLowerCase()`/`trim()` (faithful on the ASCII names used in all concrete
inputs below).
-/

namespace Ledger

/-- Model of `DB.generateId` (a random opaque string, `'_' + random suffix`):
ids are modelled as a counter-indexed injection into strings; every operation
that generates ids threads the counter. -/
def generateId (k : ℕ) : String := "_id" ++ toString k

/-- JavaScript truthiness of a string: `""` is falsy, everything else truthy. -/
def strTruthy (s : String) : Bool := s != ""

/-- A JavaScript numeric value as produced by `parseFloat`: `none` models
`NaN` (e.g. parsing an empty field), `some q` a finite number. -/
abbrev NumVal := Option ℚ

/-- JavaScript truthiness of a numeric value: `NaN` and `0` are falsy. -/
def numTruthy (v : NumVal) : Bool :=
  match v with
  | none => false
  | some q => q != 0

/-- Model of JavaScript `toLowerCase()` (faithful on ASCII letters; the
Turkish letters appearing in type literals are never lowered on a path any
claim depends on). -/
def jsLower (s : String) : String := ⟨s.data.map Char.toLower⟩

/-- Model of JavaScript `trim()`: strips whitespace from both ends. -/
def jsTrim (s : String) : String :=
  ⟨((s.data.dropWhile Char.isWhitespace).reverse.dropWhile Char.isWhitespace).reverse⟩

/-- Case-insensitive name comparison, modelling
`a.toLowerCase() === b.toLowerCase()`. -/
def lowerEq (a b : String) : Bool := jsLower a == jsLower b

/-- One transaction record, as built by the transaction form submit handlers
(renderer.js 423-433, part_000 799-810, part_001 423-434). -/
structure Transaction where
  id : String
  date : String
  customer : String
  ttype : String
  productType : String
  productName : String
  quantity : ℚ
  unit : String
  price : ℚ
  total : ℚ
deriving Repr, DecidableEq

/-- One customer record.  `veresiye`/`satis` are `Option ℚ` because the JS
objects may lack the fields or hold non-numeric values (`none`); the free-text
detail fields are `Option String` because synthesized customers
(renderer.js 340) carry only `id`, `name`, `phone`. -/
structure Customer where
  id : String
  name : String
  phone : String
  tc : Option String := none
  dob : Option String := none
  city : Option String := none
  district : Option String := none
  street : Option String := none
  veresiye : Option ℚ := none
  satis : Option ℚ := none
deriving Repr, DecidableEq

/-- One product record of the stock-tracking single-ledger generation
(renderer.js 735-756, part_001): a single `price` plus a `stock` field that
older records may lack (`none` models an absent field, read back through
`p.stock || 0`). -/
structure Product where
  id : String
  name : String
  ptype : String
  unit : String
  price : ℚ
  stock : Option ℚ := none
deriving Repr, DecidableEq

/-- One product record of the multi-ledger generation (part_000 1134):
a `buyingPrice`/`sellingPrice` pair instead of a single `price`. -/
structure ProductM where
  id : String
  name : String
  ptype : String
  unit : String
  buyingPrice : ℚ
  sellingPrice : ℚ
  stock : Option ℚ := none
deriving Repr, DecidableEq

/-! ### Ledger Aggregator

`updateCustomerAggregates` (renderer.js 318-354, part_000 420-466,
part_001 318-354; all textually identical up to the persistence call).
The JS `aggregates` object is an insertion-ordered map keyed by customer
name, embedded as an association list in first-appearance order (JS object
string keys that are not array indices iterate in insertion order). -/

/-- The name a transaction is aggregated under: `t.customer || 'İSİMSİZ'`. -/
def txnName (t : Transaction) : String :=
  if t.customer = "" then "İSİMSİZ" else t.customer

/-- Contribution of one transaction to the `(veresiye, satis)` pair of its
aggregate entry, by the type dispatch of renderer.js 324-328. -/
def txnDelta (t : Transaction) : ℚ × ℚ :=
  if t.ttype = "VERESİYE" then (t.total, 0)
  else if t.ttype = "SATIŞ" ∨ t.ttype = "İKİSİDE" ∨ t.ttype = "ÖDEME" then (0, t.total)
  else (0, 0)

/-- Add one transaction's contribution into the aggregate map, creating the
entry (initialised to `(0, 0)`) on first sight of the name. -/
def addAgg (ags : List (String × ℚ × ℚ)) (name : String) (dv ds : ℚ) :
    List (String × ℚ × ℚ) :=
  match ags with
  | [] => [(name, dv, ds)]
  | (n, v, s) :: rest =>
    if n = name then (n, v + dv, s + ds) :: rest
    else (n, v, s) :: addAgg rest name dv ds

/-- The full aggregate map of a transaction list (renderer.js 320-329). -/
def buildAggregates (ts : List Transaction) : List (String × ℚ × ℚ) :=
  ts.foldl (fun ags t => addAgg ags (txnName t) (txnDelta t).1 (txnDelta t).2) []

/-- Lookup in the aggregate map. -/
def lookupAgg : List (String × ℚ × ℚ) → String → Option (ℚ × ℚ)
  | [], _ => none
  | (n, v, s) :: rest, name => if n = name then some (v, s) else lookupAgg rest name

/-- Overwrite the `veresiye`/`satis` of the first customer in the list whose
name is exactly `name`. -/
def updateFirst (cs : List Customer) (name : String) (v s : ℚ) : List Customer :=
  match cs with
  | [] => []
  | c :: rest =>
    if c.name = name then { c with veresiye := some v, satis := some s } :: rest
    else c :: updateFirst rest name v s

/-- Overwrite the `veresiye`/`satis` of the last customer in the list whose
name is exactly `name`: the JS `map` object is built by
`state.customers.forEach(c => map[c.name] = c)`, so with duplicate names the
last record wins and `map[name].veresiye = ...` mutates that record. -/
def updateLast (cs : List Customer) (name : String) (v s : ℚ) : List Customer :=
  (updateFirst cs.reverse name v s).reverse

/-- Merge the aggregate entries into the customer list in map-key order
(renderer.js 334-344): an entry whose name matches an existing customer
overwrites that customer's cached totals; otherwise a fresh customer record
is synthesized (`phone` empty, freshly generated id) and appended.
`synthCustomer` is the record built at renderer.js 340. -/
def synthCustomer (name : String) (v s : ℚ) (k : ℕ) : Customer :=
  { id := generateId k, name := name, phone := "",
    veresiye := some v, satis := some s }

def mergeAggregates : List Customer → ℕ → List (String × ℚ × ℚ) →
    List Customer × ℕ
  | cs, k, [] => (cs, k)
  | cs, k, (name, v, s) :: rest =>
    if cs.any (fun c => c.name == name) then
      mergeAggregates (updateLast cs name v s) k rest
    else
      mergeAggregates (cs ++ [synthCustomer name v s k]) (k + 1) rest

/-- Coercion of one customer's cached totals (renderer.js 348-349): a
missing or non-numeric total becomes `0`. -/
def coerceCustomer (c : Customer) : Customer :=
  { c with veresiye := some (c.veresiye.getD 0), satis := some (c.satis.getD 0) }

/-- Final coercion pass (renderer.js 347-350): any customer whose cached
totals are missing or non-numeric gets them set to `0`. -/
def coerceNums (cs : List Customer) : List Customer :=
  cs.map coerceCustomer

/-- The Aggregator recompute, `updateCustomerAggregates`: builds the
aggregate map from scratch, merges it into the customer list, then coerces
missing totals to `0`.  Returns the new customer list and the id counter. -/
def updateCustomerAggregates (ts : List Transaction) (cs : List Customer)
    (k : ℕ) : List Customer × ℕ :=
  let ags := buildAggregates ts
  let r := mergeAggregates cs k ags
  (coerceNums r.1, r.2)

/-- Sum of the `veresiye` components contributed to an aggregate name. -/
def vSumName (ts : List Transaction) (x : String) : ℚ :=
  ((ts.filter fun t => txnName t = x).map fun t => (txnDelta t).1).sum

/-- Sum of the `satis` components contributed to an aggregate name. -/
def sSumName (ts : List Transaction) (x : String) : ℚ :=
  ((ts.filter fun t => txnName t = x).map fun t => (txnDelta t).2).sum

/-- The last customer in the list with the given exact name (the record the
JS name map resolves to). -/
def lastNamed (cs : List Customer) (n : String) : Option Customer :=
  cs.reverse.find? fun c => c.name == n

/-- Sum of `total` over a customer's transactions of type `VERESİYE`, the
quantity the specification equates with the cached `veresiye`. -/
def veresiyeSum (ts : List Transaction) (name : String) : ℚ :=
  ((ts.filter fun t => t.customer = name ∧ t.ttype = "VERESİYE").map
    Transaction.total).sum

/-- Sum of `total` over a customer's transactions of type `SATIŞ`, `İKİSİDE`
or `ÖDEME`, the quantity the specification equates with the cached `satis`. -/
def satisSum (ts : List Transaction) (name : String) : ℚ :=
  ((ts.filter fun t =>
      t.customer = name ∧
        (t.ttype = "SATIŞ" ∨ t.ttype = "İKİSİDE" ∨ t.ttype = "ÖDEME")).map
    Transaction.total).sum

/-! ### Record Editors -/

/-- Raw values of the customer form (renderer.js 669-675); the handler trims
every field except `dob`. -/
structure CustomerForm where
  name : String
  phone : String
  tc : String
  dob : String
  city : String
  district : String
  street : String
deriving Repr, DecidableEq

/-- The customer form submit handler (renderer.js 667-700): rejects a blank
trimmed name or a case-insensitive duplicate (`none`), otherwise appends the
new record (with aggregates defaulted to `0`) and persists the list. -/
def addCustomer (cs : List Customer) (f : CustomerForm) (k : ℕ) :
    Option (List Customer × ℕ) :=
  let name := jsTrim f.name
  let newCustomer : Customer :=
    { id := generateId k, name := name, phone := jsTrim f.phone,
      tc := some (jsTrim f.tc), dob := some f.dob, city := some (jsTrim f.city),
      district := some (jsTrim f.district), street := some (jsTrim f.street),
      veresiye := some 0, satis := some 0 }
  if ¬ strTruthy name then none
  else if (cs.find? fun c => lowerEq c.name name).isSome then none
  else some (cs ++ [newCustomer], k + 1)

/-- Raw values of the product form (renderer.js 737-740). -/
structure ProductForm where
  name : String
  ptype : String
  unit : String
  price : NumVal
deriving Repr, DecidableEq

/-- The product form submit handler (renderer.js 735-756): rejects a blank
trimmed name or a falsy price (`none`); it performs no duplicate-name check
and always appends the new record (stock defaulted to `0`). -/
def addProduct (ps : List Product) (f : ProductForm) (k : ℕ) :
    Option (List Product × ℕ) :=
  let name := jsTrim f.name
  let newProduct : Product :=
    { id := generateId k, name := name, ptype := f.ptype,
      unit := jsTrim f.unit, price := f.price.getD 0, stock := some 0 }
  if ¬ (strTruthy name ∧ numTruthy f.price) then none
  else some (ps ++ [newProduct], k + 1)

/-! ### Transaction Processor, single-ledger stock-tracking generation
(renderer.js 409-487, textually identical in part_001 409-488). -/

/-- Raw values of the transaction form; `quantity`/`price` are `parseFloat`
results (`none` models `NaN`). -/
structure TxnForm where
  date : String
  customer : String
  ttype : String
  productType : String
  productName : String
  quantity : NumVal
  unit : String
  price : NumVal
deriving Repr, DecidableEq

/-- The transaction record built by the submit handlers (renderer.js 423-433,
part_000 799-810) once `price` (`pr`) and `quantity` (`q`) are resolved:
`total` is stored redundantly as `price * quantity`. -/
def formTransaction (f : TxnForm) (k : ℕ) (pr q : ℚ) : Transaction :=
  { id := generateId k, date := f.date, customer := jsTrim f.customer,
    ttype := f.ttype, productType := f.productType,
    productName := jsTrim f.productName, quantity := q, unit := f.unit,
    price := pr, total := pr * q }

/-- Case-insensitive product lookup,
`state.products.find(p => p.name.toLowerCase() === productName.toLowerCase())`. -/
def findProduct (ps : List Product) (pname : String) : Option Product :=
  ps.find? fun p => lowerEq p.name pname

/-- In-place mutation `product.stock = newStock` of the product object
returned by `find`: updates the first case-insensitive name match. -/
def updateStockFirst (ps : List Product) (pname : String) (newStock : ℚ) :
    List Product :=
  match ps with
  | [] => []
  | p :: rest =>
    if lowerEq p.name pname then { p with stock := some newStock } :: rest
    else p :: updateStockFirst rest pname newStock

/-- In-memory ledger state of the single-ledger generation. -/
structure SingleState where
  transactions : List Transaction
  customers : List Customer
  products : List Product
deriving Repr, DecidableEq

/-- One attempted store write of the single-ledger generation, paired in the
logs below with the success flag the store returned for it. -/
inductive StoreWrite
  | products (data : List Product)
  | transactions (data : List Transaction)
  | customers (data : List Customer)
deriving Repr, DecidableEq

/-- Outcome of a transaction form submission. -/
inductive TxnOutcome
  | missingFields
  | productNotFound
  | insufficientStock
  | saveFailed
  | saved
deriving Repr, DecidableEq

/-- The transaction form submit handler of the stock-tracking single-ledger
generation (renderer.js 409-487): price defaulting from the catalog,
required-field validation, stock check and mutation with an immediate product
persist, append and transaction-list persist, then on success the Aggregator
recompute-and-persist, on failure a pop of the in-memory transaction with no
stock rollback.  `productsOk`/`txnsOk`/`customersOk` are the success flags
the store returns for the three writes. -/
def submitTransaction (st : SingleState) (f : TxnForm) (k : ℕ)
    (productsOk txnsOk customersOk : Bool) :
    SingleState × ℕ × TxnOutcome × List (StoreWrite × Bool) :=
  let pname := jsTrim f.productName
  let product := findProduct st.products pname
  let price : NumVal :=
    if ¬ numTruthy f.price ∧ product.isSome then
      some ((product.map Product.price).getD 0)
    else f.price
  let customer := jsTrim f.customer
  if ¬ (strTruthy f.date ∧ strTruthy customer ∧ strTruthy pname ∧
        numTruthy f.quantity ∧ numTruthy price) then
    (st, k + 1, TxnOutcome.missingFields, [])
  else
    let q := f.quantity.getD 0
    let pr := price.getD 0
    let newTxn : Transaction := formTransaction f k pr q
    match product with
    | none => (st, k + 1, TxnOutcome.productNotFound, [])
    | some p =>
      let currentStock := p.stock.getD 0
      if f.ttype = "İADE" then
        let st1 := { st with products := updateStockFirst st.products pname (currentStock + q) }
        let st2 := { st1 with transactions := st1.transactions ++ [newTxn] }
        let w0 := [(StoreWrite.products st1.products, productsOk),
                   (StoreWrite.transactions st2.transactions, txnsOk)]
        if txnsOk then
          let r := updateCustomerAggregates st2.transactions st2.customers (k + 1)
          ({ st2 with customers := r.1 }, r.2, TxnOutcome.saved,
            w0 ++ [(StoreWrite.customers r.1, customersOk)])
        else
          ({ st2 with transactions := st2.transactions.dropLast }, k + 1,
            TxnOutcome.saveFailed, w0)
      else if currentStock < q then
        (st, k + 1, TxnOutcome.insufficientStock, [])
      else
        let st1 := { st with products := updateStockFirst st.products pname (currentStock - q) }
        let st2 := { st1 with transactions := st1.transactions ++ [newTxn] }
        let w0 := [(StoreWrite.products st1.products, productsOk),
                   (StoreWrite.transactions st2.transactions, txnsOk)]
        if txnsOk then
          let r := updateCustomerAggregates st2.transactions st2.customers (k + 1)
          ({ st2 with customers := r.1 }, r.2, TxnOutcome.saved,
            w0 ++ [(StoreWrite.customers r.1, customersOk)])
        else
          ({ st2 with transactions := st2.transactions.dropLast }, k + 1,
            TxnOutcome.saveFailed, w0)

/-! ### Transaction Processor, multi-ledger generation (part_000 784-863)
and its persistence routine `saveCurrentDatabase` (part_000 603-616). -/

/-- Metadata of one ledger ("database"), part_000 507-512. -/
structure DbMeta where
  id : String
  name : String
  createdDate : String
  lastModified : String
deriving Repr, DecidableEq

/-- In-memory state of the multi-ledger generation: the metadata list and
current id (part_000 92-93) plus the loaded record sets. -/
structure MultiState where
  databases : List DbMeta
  currentDatabaseId : Option String
  transactions : List Transaction
  customers : List Customer
  products : List ProductM
deriving Repr, DecidableEq

/-- One attempted store write of the multi-ledger generation. -/
inductive StoreWriteM
  | transactions (data : List Transaction)
  | customers (data : List Customer)
  | products (data : List ProductM)
  | metadata (data : List DbMeta)
deriving Repr, DecidableEq

/-- JavaScript truthiness of `currentDatabaseId` (`null` or a nonempty
generated id). -/
def idTruthy (o : Option String) : Bool :=
  match o with
  | none => false
  | some s => s != ""

/-- Mutation `currentDb.lastModified = now.toISOString()` on the first
metadata entry found for the current id (part_000 607-610). -/
def touchLastModified (dbs : List DbMeta) (dbId now : String) : List DbMeta :=
  match dbs with
  | [] => []
  | d :: rest =>
    if d.id = dbId then { d with lastModified := now } :: rest
    else d :: touchLastModified rest dbId now

/-- Case-insensitive product lookup in the multi-ledger catalog. -/
def findProductM (ps : List ProductM) (pname : String) : Option ProductM :=
  ps.find? fun p => lowerEq p.name pname

/-- In-place stock mutation in the multi-ledger catalog. -/
def updateStockFirstM (ps : List ProductM) (pname : String) (newStock : ℚ) :
    List ProductM :=
  match ps with
  | [] => []
  | p :: rest =>
    if lowerEq p.name pname then { p with stock := some newStock } :: rest
    else p :: updateStockFirstM rest pname newStock

/-- `saveCurrentDatabase` (part_000 603-616): touches the current ledger's
`lastModified`, writes the three record sets and the metadata, and ends
without a `return` statement, so its awaited value is `undefined` — modelled
as the third component `(none : Option Bool)` regardless of write success. -/
def saveCurrentDatabase (st : MultiState) (now : String) (writeOk : Bool) :
    MultiState × List (StoreWriteM × Bool) × Option Bool :=
  match st.currentDatabaseId with
  | none => (st, [], none)
  | some dbId =>
    let st1 := { st with databases := touchLastModified st.databases dbId now }
    (st1,
      [(StoreWriteM.transactions st1.transactions, writeOk),
       (StoreWriteM.customers st1.customers, writeOk),
       (StoreWriteM.products st1.products, writeOk),
       (StoreWriteM.metadata st1.databases, writeOk)],
      none)

/-- JavaScript truthiness of the awaited `saveCurrentDatabase()` result
(`undefined` is falsy). -/
def resultTruthy (o : Option Bool) : Bool :=
  match o with
  | none => false
  | some b => b

/-- The transaction form submit handler of the multi-ledger generation
(part_000 784-863): identical pipeline to the single-ledger one except that
the price default comes from `sellingPrice`, each persist is a full
`saveCurrentDatabase`, and the success test is
`const saved = await saveCurrentDatabase(); if (saved) ...`. -/
def submitTransactionMulti (st : MultiState) (f : TxnForm) (k : ℕ)
    (now : String) (writeOk : Bool) :
    MultiState × ℕ × TxnOutcome × List (StoreWriteM × Bool) :=
  let pname := jsTrim f.productName
  let product := findProductM st.products pname
  let price : NumVal :=
    if ¬ numTruthy f.price ∧ product.isSome then
      some ((product.map ProductM.sellingPrice).getD 0)
    else f.price
  let customer := jsTrim f.customer
  if ¬ (strTruthy f.date ∧ strTruthy customer ∧ strTruthy pname ∧
        numTruthy f.quantity ∧ numTruthy price) then
    (st, k + 1, TxnOutcome.missingFields, [])
  else
    let q := f.quantity.getD 0
    let pr := price.getD 0
    let newTxn : Transaction := formTransaction f k pr q
    match product with
    | none => (st, k + 1, TxnOutcome.productNotFound, [])
    | some p =>
      let currentStock := p.stock.getD 0
      let newStock :=
        if f.ttype = "İADE" then some (currentStock + q)
        else if currentStock < q then none
        else some (currentStock - q)
      match newStock with
      | none => (st, k + 1, TxnOutcome.insufficientStock, [])
      | some ns =>
        let st1 := { st with products := updateStockFirstM st.products pname ns }
        let r1 := saveCurrentDatabase st1 now writeOk
        let st2 := { r1.1 with transactions := r1.1.transactions ++ [newTxn] }
        let r2 := saveCurrentDatabase st2 now writeOk
        if resultTruthy r2.2.2 then
          let ag := updateCustomerAggregates r2.1.transactions r2.1.customers (k + 1)
          let st3 := { r2.1 with customers := ag.1 }
          let r3 := saveCurrentDatabase st3 now writeOk
          (r3.1, ag.2, TxnOutcome.saved, r1.2.1 ++ r2.2.1 ++ r3.2.1)
        else
          ({ r2.1 with transactions := r2.1.transactions.dropLast }, k + 1,
            TxnOutcome.saveFailed, r1.2.1 ++ r2.2.1)

/-! ### Transaction delete handlers -/

/-- The single-ledger transaction delete handler (renderer.js 955-969):
after confirmation, filters the transaction out, persists the transaction
list, and runs the Aggregator recompute-and-persist.  The product list is
neither touched nor written. -/
def deleteTransaction (st : SingleState) (tid : String) (confirmed : Bool)
    (k : ℕ) (txnsOk customersOk : Bool) :
    SingleState × ℕ × List (StoreWrite × Bool) :=
  if ¬ confirmed then (st, k, [])
  else
    let ts := st.transactions.filter fun t => t.id != tid
    let r := updateCustomerAggregates ts st.customers k
    ({ st with transactions := ts, customers := r.1 }, r.2,
      [(StoreWrite.transactions ts, txnsOk), (StoreWrite.customers r.1, customersOk)])

/-- The multi-ledger transaction delete handler (part_000 1410-1424):
after confirmation, filters the transaction out, saves the whole current
database, and runs the Aggregator recompute, whose persist saves the whole
current database again. -/
def deleteTransactionMulti (st : MultiState) (tid : String) (confirmed : Bool)
    (k : ℕ) (now : String) (writeOk : Bool) :
    MultiState × ℕ × List (StoreWriteM × Bool) :=
  if ¬ confirmed then (st, k, [])
  else
    let st1 := { st with transactions := st.transactions.filter fun t => t.id != tid }
    let r1 := saveCurrentDatabase st1 now writeOk
    let ag := updateCustomerAggregates r1.1.transactions r1.1.customers k
    let st2 := { r1.1 with customers := ag.1 }
    let r2 := saveCurrentDatabase st2 now writeOk
    (r2.1, ag.2, r1.2.1 ++ r2.2.1)

/-! ### Ledger Repository (part_000 478-597, 707-746)

The repository state tracked here is the metadata list and the current
ledger id; the per-ledger record sets live behind namespaced store keys and
do not enter the non-empty/valid-current invariant. -/

/-- Repository metadata state (part_000 92-93) with the id counter. -/
structure RepoState where
  databases : List DbMeta
  currentDatabaseId : Option String
  nextId : ℕ
deriving Repr, DecidableEq

/-- Fresh metadata for a new ledger (part_000 507-512). -/
def newDbMeta (name now : String) (k : ℕ) : DbMeta :=
  { id := generateId k, name := jsTrim name, createdDate := now,
    lastModified := now }

/-- `createDatabase` (part_000 494-532): rejects a blank trimmed name or a
case-insensitive duplicate, otherwise appends fresh metadata, initialises the
record sets, and switches the current ledger to the new one. -/
def createDatabase (name now : String) (st : RepoState) : RepoState × Bool :=
  if ¬ strTruthy (jsTrim name) then (st, false)
  else if st.databases.any (fun db => lowerEq db.name name) then (st, false)
  else
    ({ databases := st.databases ++ [newDbMeta name now st.nextId],
       currentDatabaseId := some (generateId st.nextId),
       nextId := st.nextId + 1 }, true)

/-- `loadDatabase` (part_000 569-597): switches the current ledger to an
existing id, failing on an unknown id. -/
def loadDatabase (dbId : String) (st : RepoState) : RepoState × Bool :=
  if (st.databases.find? fun db => db.id == dbId).isSome then
    ({ st with currentDatabaseId := some dbId }, true)
  else (st, false)

/-- `deleteDatabase` (part_000 535-567): erases an existing, interactively
confirmed ledger; if it was current, switches to the first remaining ledger
or creates a fresh default (`"Ana Veritabanı"`) when none remain. -/
def deleteDatabase (dbId : String) (confirmed : Bool) (now : String)
    (st : RepoState) : RepoState × Bool :=
  if (st.databases.find? fun db => db.id == dbId).isNone then (st, false)
  else if ¬ confirmed then (st, false)
  else if st.currentDatabaseId == some dbId then
    match st.databases.filter fun db => db.id != dbId with
    | d :: rest =>
      ({ st with databases := d :: rest, currentDatabaseId := some d.id }, true)
    | [] => ((createDatabase "Ana Veritabanı" now { st with databases := [] }).1, true)
  else ({ st with databases := st.databases.filter fun db => db.id != dbId }, true)

/-- `loadDatabases` (part_000 478-492), run once at startup
(`loadInitialData`, part_000 323-330): reads the metadata list (`none`
models a non-array read result), points the current id at the first ledger
when it is unset, and creates a default ledger when none exist. -/
def loadDatabases (metadata : Option (List DbMeta)) (now : String)
    (st : RepoState) : RepoState :=
  let dbs := metadata.getD []
  let st1 := { st with databases := dbs }
  match dbs with
  | d :: _ =>
    if ¬ idTruthy st1.currentDatabaseId then
      { st1 with currentDatabaseId := some d.id }
    else st1
  | [] => (createDatabase "Ana Veritabanı" now st1).1

/-- `importAllDatabases` (part_000 707-746), metadata effect: appends each
bundle entry whose id is not yet present, then switches to the first
imported entry's id (which is then always present). -/
def importAllDatabases (entries : List DbMeta) (st : RepoState) : RepoState :=
  let dbs := entries.foldl
    (fun dbs e => if dbs.any (fun db => db.id == e.id) then dbs else dbs ++ [e])
    st.databases
  match entries with
  | [] => { st with databases := dbs }
  | e :: _ => (loadDatabase e.id { st with databases := dbs }).1

/-- One repository operation available after startup. -/
inductive RepoOp
  | create (name now : String)
  | deleteDb (dbId : String) (confirmed : Bool) (now : String)
  | load (dbId : String)
  | importAll (entries : List DbMeta)

/-- Effect of one repository operation on the metadata state. -/
def applyRepoOp (st : RepoState) : RepoOp → RepoState
  | RepoOp.create name now => (createDatabase name now st).1
  | RepoOp.deleteDb dbId c now => (deleteDatabase dbId c now st).1
  | RepoOp.load dbId => (loadDatabase dbId st).1
  | RepoOp.importAll entries => importAllDatabases entries st

/-- State before startup: no ledgers, no current id (part_000 92-93). -/
def initialRepoState : RepoState :=
  { databases := [], currentDatabaseId := none, nextId := 0 }

/-- States reachable by the repository: startup (`loadDatabases` on whatever
the store returns) followed by any sequence of repository operations. -/
inductive Reachable : RepoState → Prop
  | startup (metadata : Option (List DbMeta)) (now : String) :
      Reachable (loadDatabases metadata now initialRepoState)
  | step (s : RepoState) (op : RepoOp) : Reachable s → Reachable (applyRepoOp s op)

/-- The repository invariant: at least one ledger exists and
`currentDatabaseId` is the id of an existing ledger. -/
def repoInv (st : RepoState) : Prop :=
  st.databases ≠ [] ∧ ∃ d ∈ st.databases, st.currentDatabaseId = some d.id

/-! ### Bulk import (renderer.js 804-816, identical second revision at
renderer.js 1646-1656) -/

/-- The customer field of one parsed CSV transaction row
(`row['ADI SOYADI'] || 'İSİMSİZ'`, renderer.js 775): a missing or empty
column falls back to the unnamed sentinel. -/
def csvCustomer (field : Option String) : String :=
  match field with
  | none => "İSİMSİZ"
  | some s => if s = "" then "İSİMSİZ" else s

/-- First-occurrence deduplication, the order-preserving contents of
`new Set(...)`. -/
def dedupFirst : List String → List String
  | [] => []
  | n :: rest => n :: (dedupFirst rest).filter (fun m => m != n)

/-- Customer records synthesized for a list of names
(`[...customerNames].map(name => ({id, name, phone: ''}))`). -/
def mkImportCustomers : List String → ℕ → List Customer × ℕ
  | [], k => ([], k)
  | n :: rest, k =>
    let r := mkImportCustomers rest (k + 1)
    ({ id := generateId k, name := n, phone := "" } :: r.1, r.2)

/-- The import click handler's state effect (renderer.js 804-816): replaces
the transaction and product sets with the parsed ones, replaces the customer
set with records for the distinct transaction customer values, and persists
all three lists. -/
def importApply (_st : SingleState) (importedTs : List Transaction)
    (importedPs : List Product) (k : ℕ) (writeOk : Bool) :
    SingleState × ℕ × List (StoreWrite × Bool) :=
  let r := mkImportCustomers (dedupFirst (importedTs.map Transaction.customer)) k
  ({ transactions := importedTs, customers := r.1, products := importedPs }, r.2,
    [(StoreWrite.transactions importedTs, writeOk),
     (StoreWrite.products importedPs, writeOk),
     (StoreWrite.customers r.1, writeOk)])

/-- Customer-name set the specification claims the import produces: the
distinct imported customer names minus the unnamed sentinel, merged with the
names already present without duplicating them. -/
def specImportCustomerNames (importedTs : List Transaction)
    (existing : List String) : List String :=
  existing ++ (dedupFirst (importedTs.map Transaction.customer)).filter
    (fun n => n != "İSİMSİZ" && ¬ existing.contains n)

/-! ### Concrete sample inputs used by witnesses and counterexamples -/

/-- A catalog product with stock 20 (the §8 scenario of the specification). -/
def sampleProduct : Product :=
  { id := "p1", name := "Gubre", ptype := "GÜBRE", unit := "KG", price := 5,
    stock := some 20 }

/-- A ledger holding only `sampleProduct`. -/
def sampleState : SingleState :=
  { transactions := [], customers := [], products := [sampleProduct] }

/-- The §8 scenario form input: customer Ahmet buys 10 units at price 5. -/
def sampleForm : TxnForm :=
  { date := "2024-01-01", customer := "Ahmet", ttype := "SATIŞ",
    productType := "GÜBRE", productName := "Gubre", quantity := some 10,
    unit := "KG", price := some 5 }

/-- A multi-ledger catalog product with stock 20. -/
def sampleProductM : ProductM :=
  { id := "p1", name := "Gubre", ptype := "GÜBRE", unit := "KG",
    buyingPrice := 3, sellingPrice := 5, stock := some 20 }

/-- Metadata of the sample current ledger. -/
def sampleDbMeta : DbMeta :=
  { id := "db1", name := "Ana Veritabanı", createdDate := "2024-01-01",
    lastModified := "2024-01-01" }

/-- A multi-ledger state with one ledger, current, holding `sampleProductM`. -/
def sampleMultiState : MultiState :=
  { databases := [sampleDbMeta], currentDatabaseId := some "db1",
    transactions := [], customers := [], products := [sampleProductM] }

/-- A customer record for Ahmet with zeroed aggregates. -/
def sampleCustomer : Customer :=
  { id := "c1", name := "Ahmet", phone := "", veresiye := some 0, satis := some 0 }

/-- A parsed CSV transaction row whose customer column was missing, so the
customer field fell back to the unnamed sentinel; the remaining fields hold
the declared parse defaults. -/
def sampleImportTxn : Transaction :=
  { id := "t9", date := "2024-01-01", customer := csvCustomer none,
    ttype := "SATIŞ", productType := "DİĞER", productName := "Bilinmeyen Ürün",
    quantity := 1, unit := "TANE", price := 0, total := 0 }

/-- A single-ledger state that already contains the customer Ahmet. -/
def sampleImportState : SingleState :=
  { transactions := [], customers := [sampleCustomer], products := [] }

/-- A recorded sale transaction (quantity 10 at price 5). -/
def sampleTxn : Transaction :=
  { id := "t1", date := "2024-01-01", customer := "Ahmet", ttype := "SATIŞ",
    productType := "GÜBRE", productName := "Gubre", quantity := 10,
    unit := "KG", price := 5, total := 50 }

/-- The sample multi-ledger state after the sample sale: one recorded
transaction and stock 10 on the product. -/
def sampleMultiState2 : MultiState :=
  { sampleMultiState with
      transactions := [sampleTxn],
      products := [{ sampleProductM with stock := some 10 }] }

/-- Case-insensitive uniqueness of a list of names. -/
def caseUnique (names : List String) : Prop :=
  names.Pairwise fun a b => jsLower a ≠ jsLower b

/-- Whether a single-ledger store write targets the products key. -/
def isProductsWrite : StoreWrite → Bool
  | StoreWrite.products _ => true
  | _ => false

/-- The product list carried by a multi-ledger store write, when it is a
products write. -/
def productsWriteData : StoreWriteM → Option (List ProductM)
  | StoreWriteM.products ps => some ps
  | _ => none

end Ledger

/-! ## Theorems -/

namespace Ledger

/-- Updating the stock of the product found by a case-insensitive name lookup
changes exactly that product's `stock` field. -/
theorem findProduct_updateStockFirst (ps : List Product) (n : String) (v : ℚ)
    (p : Product) (h : findProduct ps n = some p) :
    findProduct (updateStockFirst ps n v) n = some { p with stock := some v } := by
  induction ps with
  | nil => simp [findProduct] at h
  | cons a rest ih =>
    by_cases hl : lowerEq a.name n
    · simp [findProduct, List.find?, hl] at h
      subst h
      simp [findProduct, updateStockFirst, List.find?, hl]
    · simp only [findProduct, updateStockFirst, List.find?] at h ⊢
      simp [hl] at h ⊢
      exact ih h

/-- C3: in the stock-tracking generation, for a product with initial stock
`S`, a validated SALE-like submission (`VERESİYE`, `SATIŞ`, `İKİSİDE`) of
quantity `q ≤ S` leaves that product's stock at `S - q`; a validated `İADE`
(RETURN) leaves it at `S + q` unconditionally; and a SALE-like submission
with `q > S` is rejected with `InsufficientStock`, no stock mutation, no
transaction appended and no store write. -/
theorem c3_stock_conservation (st : SingleState) (f : TxnForm) (k : ℕ)
    (pOk tOk cOk : Bool) (p : Product) (S q : ℚ)
    (hdate : strTruthy f.date = true)
    (hcust : strTruthy (jsTrim f.customer) = true)
    (hpn : strTruthy (jsTrim f.productName) = true)
    (hq : f.quantity = some q) (hq0 : q ≠ 0)
    (hpr : numTruthy f.price = true)
    (hfind : findProduct st.products (jsTrim f.productName) = some p)
    (hS : p.stock.getD 0 = S) :
    ((f.ttype = "VERESİYE" ∨ f.ttype = "SATIŞ" ∨ f.ttype = "İKİSİDE") → q ≤ S →
      findProduct (submitTransaction st f k pOk tOk cOk).1.products (jsTrim f.productName)
        = some { p with stock := some (S - q) }) ∧
    (f.ttype = "İADE" →
      findProduct (submitTransaction st f k pOk tOk cOk).1.products (jsTrim f.productName)
        = some { p with stock := some (S + q) }) ∧
    ((f.ttype = "VERESİYE" ∨ f.ttype = "SATIŞ" ∨ f.ttype = "İKİSİDE") → S < q →
      submitTransaction st f k pOk tOk cOk
        = (st, k + 1, TxnOutcome.insufficientStock, [])) := by
  have hqt : numTruthy f.quantity = true := by simp [numTruthy, hq, hq0]
  have hq2 : numTruthy (some q) = true := by simp [numTruthy, hq0]
  refine ⟨?_, ?_, ?_⟩
  · intro hty hqS
    have hiade : ¬ (f.ttype = "İADE") := by
      rcases hty with h | h | h <;> simp [h]
    have hnotlt : ¬ (S < q) := not_lt.mpr hqS
    simp only [submitTransaction, hfind, hdate, hcust, hpn, hq, hpr, hqt]
    simp [hiade, hS, hnotlt, hdate, hcust, hpn, hpr, hqt, hq2]
    by_cases htOk : tOk <;>
      simp [htOk, hq2, findProduct_updateStockFirst st.products _ _ p hfind]
  · intro hty
    simp only [submitTransaction, hfind, hdate, hcust, hpn, hq, hpr, hqt]
    by_cases htOk : tOk <;>
      simp [hty, hS, htOk, hdate, hcust, hpn, hpr, hqt, hq2,
        findProduct_updateStockFirst st.products _ _ p hfind]
  · intro hty hlt
    have hiade : ¬ (f.ttype = "İADE") := by
      rcases hty with h | h | h <;> simp [h]
    simp only [submitTransaction, hfind, hdate, hcust, hpn, hq, hpr, hqt]
    simp [hiade, hS, hlt, hdate, hcust, hpn, hpr, hqt, hq2]

/-- Witness for C3 at the §8 scenario: selling 10 of 20 leaves stock 10, and
a sale of 30 against stock 20 is rejected with stock unchanged. -/
theorem c3_stock_conservation_witness :
    findProduct (submitTransaction sampleState sampleForm 0 true true true).1.products "Gubre"
        = some { sampleProduct with stock := some 10 } ∧
    submitTransaction sampleState { sampleForm with quantity := some 30 } 0 true true true
        = (sampleState, 1, TxnOutcome.insufficientStock, []) := by
  constructor
  · have h := (c3_stock_conservation sampleState sampleForm 0 true true true
      sampleProduct 20 10 (by decide) (by decide) (by decide) rfl (by decide)
      (by decide) (by decide) (by decide)).1 (Or.inr (Or.inl rfl)) (by norm_num)
    have e1 : jsTrim sampleForm.productName = "Gubre" := by decide
    have e2 : (20 - 10 : ℚ) = 10 := by norm_num
    rw [e1, e2] at h
    exact h
  · have h := (c3_stock_conservation sampleState
      { sampleForm with quantity := some 30 } 0 true true true
      sampleProduct 20 30 (by decide) (by decide) (by decide) rfl (by decide)
      (by decide) (by decide) (by decide)).2.2 (Or.inr (Or.inl rfl)) (by norm_num)
    simpa using h

/-- C4: in the single-ledger generation, when the product write succeeds but
the transaction-list write fails after the stock was decremented, the handler
removes the new transaction from the in-memory list, yet neither the
in-memory stock mutation nor the already-persisted product record is rolled
back: the write log holds exactly one (successful) products write, carrying
the decremented stock, and the failed transactions write. -/
theorem c4_persist_failure_rollback (st : SingleState) (f : TxnForm) (k : ℕ)
    (cOk : Bool) (p : Product) (S q : ℚ)
    (hdate : strTruthy f.date = true)
    (hcust : strTruthy (jsTrim f.customer) = true)
    (hpn : strTruthy (jsTrim f.productName) = true)
    (hq : f.quantity = some q) (hq0 : q ≠ 0)
    (hpr : numTruthy f.price = true)
    (hfind : findProduct st.products (jsTrim f.productName) = some p)
    (hS : p.stock.getD 0 = S)
    (hiade : f.ttype ≠ "İADE") (hqS : ¬ S < q) :
    (submitTransaction st f k true false cOk).1.transactions = st.transactions ∧
    findProduct (submitTransaction st f k true false cOk).1.products (jsTrim f.productName)
      = some { p with stock := some (S - q) } ∧
    (submitTransaction st f k true false cOk).2.2.1 = TxnOutcome.saveFailed ∧
    (submitTransaction st f k true false cOk).2.2.2 =
      [(StoreWrite.products (updateStockFirst st.products (jsTrim f.productName) (S - q)), true),
       (StoreWrite.transactions (st.transactions ++ [formTransaction f k (f.price.getD 0) q]), false)] := by
  have hqt : numTruthy f.quantity = true := by simp [numTruthy, hq, hq0]
  have hq2 : numTruthy (some q) = true := by simp [numTruthy, hq0]
  refine ⟨?_, ?_, ?_, ?_⟩ <;>
  · simp only [submitTransaction, hfind, hdate, hcust, hpn, hq, hpr, hqt]
    simp [hiade, hS, hqS, hdate, hcust, hpn, hpr, hqt, hq2,
      findProduct_updateStockFirst st.products _ _ p hfind]

/-- Witness for C4: the §8 scenario with a failing transaction write leaves
the in-memory list empty, stock 10 in memory, and a persisted products write
holding stock 10. -/
theorem c4_persist_failure_rollback_witness :
    (submitTransaction sampleState sampleForm 0 true false true).1.transactions = [] ∧
    findProduct (submitTransaction sampleState sampleForm 0 true false true).1.products "Gubre"
      = some { sampleProduct with stock := some 10 } ∧
    (submitTransaction sampleState sampleForm 0 true false true).2.2.1 = TxnOutcome.saveFailed := by
  have h := c4_persist_failure_rollback sampleState sampleForm 0 true
    sampleProduct 20 10 (by decide) (by decide) (by decide) rfl (by decide)
    (by decide) (by decide) (by decide) (by decide) (by norm_num)
  have e1 : jsTrim sampleForm.productName = "Gubre" := by decide
  have e2 : (20 - 10 : ℚ) = 10 := by norm_num
  rw [e1, e2] at h
  exact ⟨h.1, h.2.1, h.2.2.1⟩

/-- The awaited result of `saveCurrentDatabase` is always `undefined`:
the function body has no `return` statement with a value. -/
theorem saveCurrentDatabase_result_none (st : MultiState) (now : String)
    (ok : Bool) : (saveCurrentDatabase st now ok).2.2 = none := by
  cases h : st.currentDatabaseId <;> simp [saveCurrentDatabase, h]

/-- C2: in the multi-ledger generation the success branch of the transaction
submit handler is unreachable — `const saved = await saveCurrentDatabase()`
is always `undefined` because `saveCurrentDatabase` returns no value — so no
submission ever reports success or triggers the Aggregator recompute.  At
the §8 scenario with every store write succeeding, the handler persists the
new transaction (the fifth write-log entry is a successful transactions
write containing it) yet reports failure, removes the transaction from the
in-memory list, and leaves the customer aggregates unrecomputed. -/
theorem c2_success_branch_unreachable :
    (∀ (st : MultiState) (f : TxnForm) (k : ℕ) (now : String) (ok : Bool),
      (submitTransactionMulti st f k now ok).2.2.1 ≠ TxnOutcome.saved) ∧
    ((submitTransactionMulti sampleMultiState sampleForm 0 "2024-01-02" true).2.2.1
        = TxnOutcome.saveFailed ∧
      (submitTransactionMulti sampleMultiState sampleForm 0 "2024-01-02" true).1.transactions
        = [] ∧
      (submitTransactionMulti sampleMultiState sampleForm 0 "2024-01-02" true).1.customers
        = [] ∧
      (submitTransactionMulti sampleMultiState sampleForm 0 "2024-01-02" true).2.2.2[4]?
        = some (StoreWriteM.transactions [formTransaction sampleForm 0 5 10], true)) := by
  constructor
  · intro st f k now ok h
    simp only [submitTransactionMulti] at h
    repeat' split at h
    all_goals simp_all [saveCurrentDatabase_result_none, resultTruthy]
  · refine ⟨by decide, by decide, by decide, by rfl⟩

/-- C5 counterexample: a product add whose trimmed name matches an existing
product case-insensitively ("gubre" vs "Gubre") is NOT rejected — the
product form handler performs no duplicate-name check, so the claim fails
for add-product requests. -/
theorem c5_duplicate_add_counterexample :
    lowerEq sampleProduct.name (jsTrim "gubre") = true ∧
    addProduct [sampleProduct]
      { name := "gubre", ptype := "GÜBRE", unit := "KG", price := some 7 } 5
      ≠ none := by
  refine ⟨by decide, by decide⟩

/-- C5 amended: an add-customer request whose trimmed name matches an
existing customer case-insensitively is rejected, leaving the list (and so
the existing record) unchanged; add-product requests are never
duplicate-checked: any submission with a non-blank trimmed name and truthy
price is accepted, appending exactly one record and leaving all existing
records unchanged. -/
theorem c5_duplicate_add_amended (cs : List Customer) (f : CustomerForm)
    (k : ℕ) (ps : List Product) (g : ProductForm) (j : ℕ)
    (hdup : ∃ c ∈ cs, lowerEq c.name (jsTrim f.name) = true)
    (hgname : strTruthy (jsTrim g.name) = true)
    (hgprice : numTruthy g.price = true) :
    addCustomer cs f k = none ∧
    (addProduct ps g j).isSome = true ∧
    (∀ r, addProduct ps g j = some r →
      r.1.take ps.length = ps ∧ r.1.length = ps.length + 1) := by
  refine ⟨?_, ?_, ?_⟩
  · have hfind : (cs.find? fun c => lowerEq c.name (jsTrim f.name)).isSome := by
      rw [List.find?_isSome]
      obtain ⟨c, hc, hl⟩ := hdup
      exact ⟨c, hc, hl⟩
    by_cases hb : strTruthy (jsTrim f.name)
    · simp [addCustomer, hb, hfind]
    · simp [addCustomer, hb]
  · simp [addProduct, hgname, hgprice]
  · intro r hr
    simp [addProduct, hgname, hgprice] at hr
    rw [← hr]
    simp

/-- Witness for C5 amended: "ahmet" is rejected against existing customer
"Ahmet", while the duplicate product "gubre" against "Gubre" is accepted and
appended. -/
theorem c5_duplicate_add_amended_witness :
    addCustomer [sampleCustomer]
      { name := "ahmet", phone := "", tc := "", dob := "", city := "",
        district := "", street := "" } 3 = none ∧
    (addProduct [sampleProduct]
      { name := "gubre", ptype := "GÜBRE", unit := "KG", price := some 7 } 5).isSome
      = true := by
  have h := c5_duplicate_add_amended [sampleCustomer]
    { name := "ahmet", phone := "", tc := "", dob := "", city := "",
      district := "", street := "" } 3 [sampleProduct]
    { name := "gubre", ptype := "GÜBRE", unit := "KG", price := some 7 } 5
    ⟨sampleCustomer, by decide, by decide⟩ (by decide) (by decide)
  exact ⟨h.1, h.2.1⟩

/-- Membership in the deduplicated list is membership in the original. -/
theorem mem_dedupFirst (l : List String) (x : String) :
    x ∈ dedupFirst l ↔ x ∈ l := by
  induction l with
  | nil => simp [dedupFirst]
  | cons n rest ih =>
    by_cases hx : x = n
    · simp [dedupFirst, hx]
    · simp [dedupFirst, List.mem_filter, ih, hx]

/-- The deduplicated list has no duplicates. -/
theorem nodup_dedupFirst (l : List String) : (dedupFirst l).Nodup := by
  induction l with
  | nil => simp [dedupFirst]
  | cons n rest ih =>
    refine List.Nodup.cons ?_ (ih.filter _)
    intro hmem
    have := (List.mem_filter.mp hmem).2
    simp at this

/-- The synthesized import customers carry exactly the given names. -/
theorem mkImportCustomers_names (ns : List String) (k : ℕ) :
    (mkImportCustomers ns k).1.map Customer.name = ns := by
  induction ns generalizing k with
  | nil => simp [mkImportCustomers]
  | cons n rest ih => simp [mkImportCustomers, ih]

/-- C7 counterexample: importing one transaction whose customer column was
missing, into a ledger that already contains the customer Ahmet, yields the
customer set `["İSİMSİZ"]` — the sentinel is kept and the existing customer
is discarded — while the specification's derivation yields `["Ahmet"]`. -/
theorem c7_import_customers_counterexample :
    (importApply sampleImportState [sampleImportTxn] [] 0 true).1.customers.map Customer.name
      = ["İSİMSİZ"] ∧
    specImportCustomerNames [sampleImportTxn] ["Ahmet"] = ["Ahmet"] ∧
    "Ahmet" ∉ (importApply sampleImportState [sampleImportTxn] [] 0 true).1.customers.map Customer.name ∧
    "İSİMSİZ" ∉ specImportCustomerNames [sampleImportTxn] ["Ahmet"] := by
  refine ⟨by decide, by decide, by decide, by decide⟩

/-- C7 amended: the CSV import replaces the ledger's customer set with one
synthesized record per distinct customer value of the imported transactions
— the unnamed sentinel included when present — discarding the customers
already in the ledger; the transaction and product sets are replaced by the
parsed ones. -/
theorem c7_import_customers_amended (st : SingleState) (ts : List Transaction)
    (ps : List Product) (k : ℕ) (ok : Bool) :
    ((importApply st ts ps k ok).1.customers.map Customer.name).Nodup ∧
    (∀ n, n ∈ (importApply st ts ps k ok).1.customers.map Customer.name ↔
      n ∈ ts.map Transaction.customer) ∧
    (importApply st ts ps k ok).1.transactions = ts ∧
    (importApply st ts ps k ok).1.products = ps := by
  refine ⟨?_, ?_, rfl, rfl⟩
  · simp [importApply, mkImportCustomers_names, nodup_dedupFirst]
  · intro n
    simp [importApply, mkImportCustomers_names, mem_dedupFirst]

/-- C10 counterexample: in the multi-ledger generation, deleting the sample
sale transaction DOES write the product list — `saveCurrentDatabase`
rewrites all three record sets — so "the product list is not written" fails
there (the stock value written is the unchanged, still-decremented one). -/
theorem c10_delete_stock_counterexample :
    (deleteTransactionMulti sampleMultiState2 "t1" true 0 "2024-01-03" true).2.2[2]?
      = some (StoreWriteM.products sampleMultiState2.products, true) ∧
    (deleteTransactionMulti sampleMultiState2 "t1" true 0 "2024-01-03" true).1.products
      = sampleMultiState2.products := by
  refine ⟨by decide, by decide⟩

/-- C10 amended: deleting a transaction removes it from the transaction list
and recomputes aggregates while leaving every product record (hence its
stock) unchanged in memory — stock consumed by a deleted sale is never
restored; the single-ledger handler performs no products write at all, while
the multi-ledger handler rewrites the product list with its unchanged
contents as part of saving the whole database. -/
theorem c10_delete_stock_amended (stS : SingleState) (stM : MultiState)
    (tid : String) (k j : ℕ) (now : String) (tOk cOk wOk : Bool) :
    (deleteTransaction stS tid true k tOk cOk).1.products = stS.products ∧
    (deleteTransaction stS tid true k tOk cOk).1.transactions
      = stS.transactions.filter (fun t => t.id != tid) ∧
    ((deleteTransaction stS tid true k tOk cOk).2.2.filter
      (fun w => isProductsWrite w.1)) = [] ∧
    (deleteTransactionMulti stM tid true j now wOk).1.products = stM.products ∧
    (deleteTransactionMulti stM tid true j now wOk).1.transactions
      = stM.transactions.filter (fun t => t.id != tid) ∧
    (∀ w ∈ (deleteTransactionMulti stM tid true j now wOk).2.2, ∀ ps,
      productsWriteData w.1 = some ps → ps = stM.products) := by
  refine ⟨by simp [deleteTransaction], by simp [deleteTransaction],
    by simp [deleteTransaction, isProductsWrite], ?_, ?_, ?_⟩
  · cases h : stM.currentDatabaseId <;>
      simp [deleteTransactionMulti, saveCurrentDatabase, h]
  · cases h : stM.currentDatabaseId <;>
      simp [deleteTransactionMulti, saveCurrentDatabase, h]
  · intro w hw ps hps
    cases h : stM.currentDatabaseId with
    | none => simp [deleteTransactionMulti, saveCurrentDatabase, h] at hw
    | some dbId =>
      simp [deleteTransactionMulti, saveCurrentDatabase, h] at hw
      rcases hw with hw | hw | hw | hw | hw | hw | hw | hw <;>
        simp [hw, productsWriteData] at hps <;> simp [hps]

/-- A successful `createDatabase` establishes the repository invariant; a
failed one leaves the state untouched. -/
theorem createDatabase_unchanged_or_inv (name now : String) (st : RepoState) :
    (createDatabase name now st).1 = st ∨ repoInv (createDatabase name now st).1 := by
  by_cases h1 : strTruthy (jsTrim name) = true
  · by_cases h2 : (st.databases.any fun db => lowerEq db.name name) = true
    · left
      simp [createDatabase, h1, h2]
    · right
      have e : (createDatabase name now st).1 =
          { databases := st.databases ++ [newDbMeta name now st.nextId],
            currentDatabaseId := some (generateId st.nextId),
            nextId := st.nextId + 1 } := by
        simp [createDatabase, h1, h2]
      rw [e]
      exact ⟨by simp, newDbMeta name now st.nextId, by simp, rfl⟩
  · left
    simp [createDatabase, h1]

/-- Creating the default ledger from a state with no ledgers succeeds and
establishes the invariant. -/
theorem createDefault_inv (now : String) (st : RepoState)
    (h : st.databases = []) :
    repoInv (createDatabase "Ana Veritabanı" now st).1 := by
  have hb : strTruthy (jsTrim "Ana Veritabanı") = true := by decide
  simp only [createDatabase, h, hb, List.any_nil, not_true, if_false,
    Bool.false_eq_true, List.nil_append]
  exact ⟨by simp, newDbMeta "Ana Veritabanı" now st.nextId, by simp, rfl⟩

/-- Ledgers already accumulated are preserved by the import metadata fold. -/
theorem importFold_mem (entries : List DbMeta) (acc : List DbMeta)
    (x : DbMeta) (hx : x ∈ acc) :
    x ∈ entries.foldl
      (fun dbs e => if dbs.any (fun db => db.id == e.id) then dbs else dbs ++ [e])
      acc := by
  induction entries generalizing acc with
  | nil => simpa using hx
  | cons e rest ih =>
    simp only [List.foldl_cons]
    split_ifs with h
    · exact ih acc hx
    · exact ih (acc ++ [e]) (List.mem_append_left _ hx)

/-- `loadDatabase` preserves the invariant. -/
theorem loadDatabase_inv (dbId : String) (st : RepoState) (h : repoInv st) :
    repoInv (loadDatabase dbId st).1 := by
  unfold loadDatabase
  split_ifs with hf
  · obtain ⟨d, hd, hid⟩ := List.find?_isSome.mp hf
    simp only [beq_iff_eq] at hid
    exact ⟨h.1, d, hd, by simp [hid]⟩
  · exact h

/-- The startup state satisfies the invariant for every metadata read. -/
theorem loadDatabases_initial_inv (metadata : Option (List DbMeta))
    (now : String) :
    repoInv (loadDatabases metadata now initialRepoState) := by
  cases metadata with
  | none => exact createDefault_inv now _ rfl
  | some l =>
    cases l with
    | nil => exact createDefault_inv now _ rfl
    | cons d rest =>
      have he : loadDatabases (some (d :: rest)) now initialRepoState
          = { databases := d :: rest, currentDatabaseId := some d.id,
              nextId := 0 } := rfl
      rw [he]
      exact ⟨by simp, d, by simp, rfl⟩

/-- C6: after startup, every state reachable by repository operations has at
least one ledger, with `currentDatabaseId` the id of an existing ledger; and
deleting the last remaining ledger leaves exactly one freshly created
default ledger ("Ana Veritabanı") with `currentDatabaseId` pointing at it. -/
theorem c6_repository_invariant :
    (∀ st, Reachable st → repoInv st) ∧
    (∀ (st : RepoState) (d : DbMeta) (now : String),
      st.databases = [d] → st.currentDatabaseId = some d.id →
      ∃ d2, (deleteDatabase d.id true now st).1.databases = [d2] ∧
        (deleteDatabase d.id true now st).1.currentDatabaseId = some d2.id ∧
        d2.name = "Ana Veritabanı") := by
  constructor
  · intro st h
    induction h with
    | startup metadata now => exact loadDatabases_initial_inv metadata now
    | step s op _ ih =>
      cases op with
      | create name now =>
        rcases createDatabase_unchanged_or_inv name now s with h | h
        · simpa [applyRepoOp, h] using ih
        · simpa [applyRepoOp] using h
      | deleteDb dbId c now =>
        obtain ⟨hne, d0, hd0, hid0⟩ := ih
        by_cases h1 : (List.find? (fun db => db.id == dbId) s.databases).isNone = true
        · simpa [applyRepoOp, deleteDatabase, h1] using ⟨hne, d0, hd0, hid0⟩
        · by_cases hc : c = true
          · by_cases h3 : (s.currentDatabaseId == some dbId) = true
            · rcases hfil : s.databases.filter (fun db => db.id != dbId)
                with _ | ⟨d1, rest⟩
              · have e : applyRepoOp s (RepoOp.deleteDb dbId c now) =
                    (createDatabase "Ana Veritabanı" now { s with databases := [] }).1 := by
                  simp [applyRepoOp, deleteDatabase, h1, hc, h3, hfil]
                rw [e]
                exact createDefault_inv now _ rfl
              · have e : applyRepoOp s (RepoOp.deleteDb dbId c now) =
                    { s with
                        databases := d1 :: rest,
                        currentDatabaseId := some d1.id } := by
                  simp [applyRepoOp, deleteDatabase, h1, hc, h3, hfil]
                rw [e]
                exact ⟨by simp, d1, by simp, rfl⟩
            · have hd0ne : d0.id ≠ dbId := by
                intro he
                apply h3
                simp [hid0, he]
              have hmem : d0 ∈ s.databases.filter (fun db => db.id != dbId) :=
                List.mem_filter.mpr ⟨hd0, by simp [hd0ne]⟩
              have e : applyRepoOp s (RepoOp.deleteDb dbId c now) =
                  { s with databases := s.databases.filter fun db => db.id != dbId } := by
                simp [applyRepoOp, deleteDatabase, h1, hc, h3]
              rw [e]
              exact ⟨List.ne_nil_of_mem hmem, d0, hmem, hid0⟩
          · simpa [applyRepoOp, deleteDatabase, h1, hc] using ⟨hne, d0, hd0, hid0⟩
      | load dbId =>
        exact loadDatabase_inv dbId s ih
      | importAll entries =>
        obtain ⟨hne, d0, hd0, hid0⟩ := ih
        have hmem := importFold_mem entries s.databases d0 hd0
        cases entries with
        | nil =>
          simp only [applyRepoOp, importAllDatabases, List.foldl_nil]
          exact ⟨hne, d0, hd0, hid0⟩
        | cons e rest =>
          simp only [applyRepoOp, importAllDatabases]
          apply loadDatabase_inv
          exact ⟨List.ne_nil_of_mem hmem, d0, hmem, hid0⟩
  · intro st d now h1 h2
    have hfind : (st.databases.find? fun db => db.id == d.id) = some d := by
      simp [h1]
    have hfil : (st.databases.filter fun db => db.id != d.id) = [] := by
      simp [h1]
    have hb : strTruthy (jsTrim "Ana Veritabanı") = true := by decide
    simp only [deleteDatabase, hfind, Option.isNone_some, Bool.false_eq_true,
      if_false, not_true, h2, hfil, beq_self_eq_true, if_true,
      createDatabase, hb, List.any_nil, List.nil_append]
    exact ⟨newDbMeta "Ana Veritabanı" now st.nextId, by simp, rfl,
      (by decide : jsTrim "Ana Veritabanı" = "Ana Veritabanı")⟩

/-- Witness for C6: starting from a one-ledger metadata read and then
deleting that ledger, the resulting state still satisfies the invariant. -/
theorem c6_repository_invariant_witness :
    repoInv (applyRepoOp
      (loadDatabases (some [sampleDbMeta]) "2024-01-01" initialRepoState)
      (RepoOp.deleteDb "db1" true "2024-01-02")) :=
  c6_repository_invariant.1 _
    (Reachable.step _ _ (Reachable.startup (some [sampleDbMeta]) "2024-01-01"))

end Ledger

namespace Ledger

theorem addAgg_cons_self (rest : List (String × ℚ × ℚ)) (m : String)
    (v s dv ds : ℚ) :
    addAgg ((m, v, s) :: rest) m dv ds = (m, v + dv, s + ds) :: rest := by
  simp [addAgg]

theorem addAgg_cons_other (rest : List (String × ℚ × ℚ)) (m n : String)
    (v s dv ds : ℚ) (hm : m ≠ n) :
    addAgg ((m, v, s) :: rest) n dv ds = (m, v, s) :: addAgg rest n dv ds := by
  simp [addAgg, hm]

theorem lookupAgg_addAgg (ags : List (String × ℚ × ℚ)) (n : String)
    (dv ds : ℚ) (x : String) :
    lookupAgg (addAgg ags n dv ds) x =
      if x = n then
        match lookupAgg ags n with
        | some (v, s) => some (v + dv, s + ds)
        | none => some (dv, ds)
      else lookupAgg ags x := by
  induction ags with
  | nil =>
    by_cases hx : x = n
    · simp [addAgg, lookupAgg, hx]
    · simp [addAgg, lookupAgg, hx, Ne.symm hx]
  | cons e rest ih =>
    obtain ⟨m, v, s⟩ := e
    by_cases hm : m = n
    · subst hm
      rw [addAgg_cons_self]
      by_cases hx : x = m
      · simp [lookupAgg, hx]
      · simp [lookupAgg, hx, Ne.symm hx]
    · rw [addAgg_cons_other rest m n v s dv ds hm]
      by_cases hx : x = m
      · subst hx
        simp [lookupAgg, hm, Ne.symm hm]
      · simp [lookupAgg, hx, Ne.symm hx, ih, hm]

theorem mem_keys_addAgg (ags : List (String × ℚ × ℚ)) (n : String)
    (dv ds : ℚ) (x : String) :
    x ∈ (addAgg ags n dv ds).map Prod.fst ↔ x ∈ ags.map Prod.fst ∨ x = n := by
  induction ags with
  | nil => simp [addAgg]
  | cons e rest ih =>
    obtain ⟨m, v, s⟩ := e
    by_cases hm : m = n
    · subst hm
      rw [addAgg_cons_self]
      simp only [List.map_cons, List.mem_cons]
      tauto
    · rw [addAgg_cons_other rest m n v s dv ds hm]
      simp only [List.map_cons, List.mem_cons, ih]
      tauto

theorem nodup_keys_addAgg (ags : List (String × ℚ × ℚ)) (n : String)
    (dv ds : ℚ) (h : (ags.map Prod.fst).Nodup) :
    ((addAgg ags n dv ds).map Prod.fst).Nodup := by
  induction ags with
  | nil => simp [addAgg]
  | cons e rest ih =>
    obtain ⟨m, v, s⟩ := e
    simp only [List.map_cons, List.nodup_cons] at h
    by_cases hm : m = n
    · subst hm
      rw [addAgg_cons_self]
      simp only [List.map_cons, List.nodup_cons]
      exact ⟨h.1, h.2⟩
    · rw [addAgg_cons_other rest m n v s dv ds hm]
      simp only [List.map_cons, List.nodup_cons]
      refine ⟨?_, ih h.2⟩
      rw [mem_keys_addAgg]
      push_neg
      exact ⟨h.1, hm⟩

end Ledger

namespace Ledger

theorem vSumName_cons (t : Transaction) (ts : List Transaction) (x : String) :
    vSumName (t :: ts) x =
      (if txnName t = x then (txnDelta t).1 else 0) + vSumName ts x := by
  by_cases h : txnName t = x <;> simp [vSumName, List.filter_cons, h]

theorem sSumName_cons (t : Transaction) (ts : List Transaction) (x : String) :
    sSumName (t :: ts) x =
      (if txnName t = x then (txnDelta t).2 else 0) + sSumName ts x := by
  by_cases h : txnName t = x <;> simp [sSumName, List.filter_cons, h]

theorem lookupAgg_foldl (ts : List Transaction)
    (ags : List (String × ℚ × ℚ)) (x : String) :
    lookupAgg (ts.foldl
        (fun a t => addAgg a (txnName t) (txnDelta t).1 (txnDelta t).2) ags) x =
      match lookupAgg ags x with
      | some (v, s) => some (v + vSumName ts x, s + sSumName ts x)
      | none =>
        if x ∈ ts.map txnName then some (vSumName ts x, sSumName ts x)
        else none := by
  induction ts generalizing ags with
  | nil =>
    cases h : lookupAgg ags x with
    | none => simp [h, vSumName, sSumName]
    | some p =>
      obtain ⟨v, s⟩ := p
      simp [h, vSumName, sSumName]
  | cons t ts ih =>
    rw [List.foldl_cons, ih, lookupAgg_addAgg]
    by_cases hx : x = txnName t
    · rw [if_pos hx]
      subst hx
      rcases hd : txnDelta t with ⟨dv, dsv⟩
      cases h : lookupAgg ags (txnName t) with
      | none => simp [h, hd, vSumName_cons, sSumName_cons]
      | some p =>
        obtain ⟨v, s⟩ := p
        simp [h, hd, vSumName_cons, sSumName_cons, add_assoc]
    · rw [if_neg hx]
      have hnx : txnName t ≠ x := fun hh => hx hh.symm
      cases h : lookupAgg ags x with
      | none => simp [h, hx, hnx, vSumName_cons, sSumName_cons]
      | some p =>
        obtain ⟨v, s⟩ := p
        simp [h, hnx, vSumName_cons, sSumName_cons]

theorem lookupAgg_buildAggregates (ts : List Transaction) (x : String) :
    lookupAgg (buildAggregates ts) x =
      if x ∈ ts.map txnName then some (vSumName ts x, sSumName ts x)
      else none := by
  have h := lookupAgg_foldl ts [] x
  simpa [buildAggregates, lookupAgg] using h

theorem mem_keys_foldl (ts : List Transaction)
    (ags : List (String × ℚ × ℚ)) (x : String) :
    x ∈ ((ts.foldl
        (fun a t => addAgg a (txnName t) (txnDelta t).1 (txnDelta t).2) ags).map
          Prod.fst) ↔
      x ∈ ags.map Prod.fst ∨ x ∈ ts.map txnName := by
  induction ts generalizing ags with
  | nil => simp
  | cons t ts ih =>
    rw [List.foldl_cons, ih, mem_keys_addAgg]
    simp only [List.map_cons, List.mem_cons]
    tauto

theorem mem_keys_buildAggregates (ts : List Transaction) (x : String) :
    x ∈ (buildAggregates ts).map Prod.fst ↔ x ∈ ts.map txnName := by
  have h := mem_keys_foldl ts [] x
  simpa [buildAggregates] using h

theorem nodup_keys_foldl (ts : List Transaction)
    (ags : List (String × ℚ × ℚ)) (h : (ags.map Prod.fst).Nodup) :
    ((ts.foldl
        (fun a t => addAgg a (txnName t) (txnDelta t).1 (txnDelta t).2) ags).map
          Prod.fst).Nodup := by
  induction ts generalizing ags with
  | nil => simpa using h
  | cons t ts ih =>
    rw [List.foldl_cons]
    exact ih _ (nodup_keys_addAgg _ _ _ _ h)

theorem nodup_keys_buildAggregates (ts : List Transaction) :
    ((buildAggregates ts).map Prod.fst).Nodup := by
  have h := nodup_keys_foldl ts [] (by simp)
  simpa [buildAggregates] using h

theorem lookupAgg_of_mem_nodup (ags : List (String × ℚ × ℚ)) (n : String)
    (v s : ℚ) (hnod : (ags.map Prod.fst).Nodup) (hm : (n, v, s) ∈ ags) :
    lookupAgg ags n = some (v, s) := by
  induction ags with
  | nil => simp at hm
  | cons e rest ih =>
    obtain ⟨m, v0, s0⟩ := e
    simp only [List.map_cons, List.nodup_cons] at hnod
    rcases List.mem_cons.mp hm with he | he
    · rw [Prod.mk.injEq, Prod.mk.injEq] at he
      obtain ⟨h1, h2, h3⟩ := he
      subst h1
      subst h2
      subst h3
      simp [lookupAgg]
    · have hne : m ≠ n := by
        intro hmn
        subst hmn
        exact hnod.1 (List.mem_map.mpr ⟨(m, v, s), he, rfl⟩)
      simp only [lookupAgg, if_neg hne]
      exact ih hnod.2 he

end Ledger

namespace Ledger

theorem txnDelta_fst (t : Transaction) :
    (txnDelta t).1 = if t.ttype = "VERESİYE" then t.total else 0 := by
  by_cases h : t.ttype = "VERESİYE"
  · simp [txnDelta, h]
  · simp only [txnDelta, if_neg h]
    split_ifs <;> rfl

theorem txnDelta_snd (t : Transaction) :
    (txnDelta t).2 =
      if t.ttype = "SATIŞ" ∨ t.ttype = "İKİSİDE" ∨ t.ttype = "ÖDEME" then t.total
      else 0 := by
  by_cases h : t.ttype = "VERESİYE"
  · have hns : ¬ (t.ttype = "SATIŞ" ∨ t.ttype = "İKİSİDE" ∨ t.ttype = "ÖDEME") := by
      rw [h]
      decide
    simp [txnDelta, h, hns]
  · by_cases h2 : t.ttype = "SATIŞ" ∨ t.ttype = "İKİSİDE" ∨ t.ttype = "ÖDEME" <;>
      simp [txnDelta, h, h2]

theorem vSumName_eq_veresiyeSum (ts : List Transaction) (x : String)
    (hne : ∀ t ∈ ts, t.customer ≠ "") :
    vSumName ts x = veresiyeSum ts x := by
  induction ts with
  | nil => simp [vSumName, veresiyeSum]
  | cons t ts ih =>
    have htn : txnName t = t.customer := by
      simp [txnName, hne t (List.mem_cons_self t ts)]
    have ih2 := ih fun u hu => hne u (List.mem_cons_of_mem t hu)
    rw [vSumName_cons, htn, txnDelta_fst]
    by_cases hc : t.customer = x
    · by_cases hv : t.ttype = "VERESİYE"
      · simp [veresiyeSum, List.filter_cons, hc, hv, ih2]
      · simp [veresiyeSum, List.filter_cons, hc, hv, ih2]
    · simp [veresiyeSum, List.filter_cons, hc, ih2]

theorem sSumName_eq_satisSum (ts : List Transaction) (x : String)
    (hne : ∀ t ∈ ts, t.customer ≠ "") :
    sSumName ts x = satisSum ts x := by
  induction ts with
  | nil => simp [sSumName, satisSum]
  | cons t ts ih =>
    have htn : txnName t = t.customer := by
      simp [txnName, hne t (List.mem_cons_self t ts)]
    have ih2 := ih fun u hu => hne u (List.mem_cons_of_mem t hu)
    rw [sSumName_cons, htn, txnDelta_snd]
    by_cases hc : t.customer = x
    · by_cases hv : t.ttype = "SATIŞ" ∨ t.ttype = "İKİSİDE" ∨ t.ttype = "ÖDEME"
      · simp [satisSum, List.filter_cons, hc, hv, ih2]
      · simp [satisSum, List.filter_cons, hc, hv, ih2]
    · simp [satisSum, List.filter_cons, hc, ih2]

end Ledger

namespace Ledger

theorem names_updateFirst (cs : List Customer) (n : String) (v s : ℚ) :
    (updateFirst cs n v s).map Customer.name = cs.map Customer.name := by
  induction cs with
  | nil => simp [updateFirst]
  | cons c rest ih =>
    by_cases h : c.name = n <;> simp [updateFirst, h, ih]

theorem names_updateLast (cs : List Customer) (n : String) (v s : ℚ) :
    (updateLast cs n v s).map Customer.name = cs.map Customer.name := by
  unfold updateLast
  rw [List.map_reverse, names_updateFirst, List.map_reverse, List.reverse_reverse]

theorem mem_updateFirst (cs : List Customer) (n : String) (v s : ℚ)
    (c : Customer) (h : c ∈ updateFirst cs n v s) :
    c ∈ cs ∨ (c.name = n ∧ c.veresiye = some v ∧ c.satis = some s) := by
  induction cs with
  | nil => simp [updateFirst] at h
  | cons a rest ih =>
    by_cases ha : a.name = n
    · simp only [updateFirst, if_pos ha] at h
      rcases List.mem_cons.mp h with he | he
      · right
        refine ⟨?_, ?_, ?_⟩ <;> simp [he, ha]
      · exact Or.inl (List.mem_cons_of_mem _ he)
    · simp only [updateFirst, if_neg ha] at h
      rcases List.mem_cons.mp h with he | he
      · exact Or.inl (he ▸ List.mem_cons_self a rest)
      · rcases ih he with h2 | h2
        · exact Or.inl (List.mem_cons_of_mem _ h2)
        · exact Or.inr h2

theorem mem_updateLast (cs : List Customer) (n : String) (v s : ℚ)
    (c : Customer) (h : c ∈ updateLast cs n v s) :
    c ∈ cs ∨ (c.name = n ∧ c.veresiye = some v ∧ c.satis = some s) := by
  unfold updateLast at h
  rw [List.mem_reverse] at h
  rcases mem_updateFirst _ _ _ _ _ h with h2 | h2
  · exact Or.inl (List.mem_reverse.mp h2)
  · exact Or.inr h2

theorem updateFirst_values (cs : List Customer) (n : String) (v s : ℚ)
    (hnod : (cs.map Customer.name).Nodup) (hex : n ∈ cs.map Customer.name) :
    ∀ c ∈ updateFirst cs n v s, c.name = n →
      c.veresiye = some v ∧ c.satis = some s := by
  induction cs with
  | nil => simp at hex
  | cons a rest ih =>
    simp only [List.map_cons, List.nodup_cons] at hnod
    intro c hc hcname
    by_cases ha : a.name = n
    · simp only [updateFirst, if_pos ha] at hc
      rcases List.mem_cons.mp hc with he | he
      · constructor <;> simp [he]
      · exfalso
        apply hnod.1
        rw [ha, ← hcname]
        exact List.mem_map.mpr ⟨c, he, rfl⟩
    · simp only [updateFirst, if_neg ha] at hc
      rcases List.mem_cons.mp hc with he | he
      · exact absurd (he ▸ hcname : a.name = n) ha
      · have hex2 : n ∈ rest.map Customer.name := by
          rcases (by simpa using hex : n = a.name ∨ ∃ b ∈ rest, b.name = n)
            with h2 | ⟨b, hb, hbn⟩
          · exact absurd h2.symm ha
          · exact List.mem_map.mpr ⟨b, hb, hbn⟩
        exact ih hnod.2 hex2 c he hcname

theorem updateLast_values (cs : List Customer) (n : String) (v s : ℚ)
    (hnod : (cs.map Customer.name).Nodup) (hex : n ∈ cs.map Customer.name) :
    ∀ c ∈ updateLast cs n v s, c.name = n →
      c.veresiye = some v ∧ c.satis = some s := by
  intro c hc hcname
  unfold updateLast at hc
  rw [List.mem_reverse] at hc
  refine updateFirst_values cs.reverse n v s ?_ ?_ c hc hcname
  · rw [List.map_reverse]
    exact List.nodup_reverse.mpr hnod
  · rw [List.map_reverse, List.mem_reverse]
    exact hex

theorem updateFirst_eq_self (cs : List Customer) (n : String) (v s : ℚ)
    (h : ∀ c, cs.find? (fun c => c.name == n) = some c →
      c.veresiye = some v ∧ c.satis = some s) :
    updateFirst cs n v s = cs := by
  induction cs with
  | nil => rfl
  | cons a rest ih =>
    by_cases ha : a.name = n
    · obtain ⟨h1, h2⟩ := h a (by rw [List.find?_cons_of_pos _ (by simp [ha])])
      simp only [updateFirst, if_pos ha]
      congr 1
      cases a
      simp_all
    · simp only [updateFirst, if_neg ha]
      congr 1
      refine ih fun c hc => h c ?_
      rw [List.find?_cons_of_neg _ (by simp [ha])]
      exact hc

theorem updateLast_eq_self (cs : List Customer) (n : String) (v s : ℚ)
    (h : ∀ c, lastNamed cs n = some c →
      c.veresiye = some v ∧ c.satis = some s) :
    updateLast cs n v s = cs := by
  unfold updateLast
  rw [updateFirst_eq_self cs.reverse n v s h, List.reverse_reverse]

end Ledger

namespace Ledger

theorem find?_updateFirst_self (cs : List Customer) (n : String) (v s : ℚ)
    (c0 : Customer) (h : cs.find? (fun c => c.name == n) = some c0) :
    (updateFirst cs n v s).find? (fun c => c.name == n)
      = some { c0 with veresiye := some v, satis := some s } := by
  induction cs with
  | nil => simp at h
  | cons a rest ih =>
    by_cases ha : a.name = n
    · rw [List.find?_cons_of_pos _ (by simp [ha])] at h
      obtain rfl := Option.some.inj h
      simp only [updateFirst, if_pos ha]
      rw [List.find?_cons_of_pos _ (by simp [ha])]
    · rw [List.find?_cons_of_neg _ (by simp [ha])] at h
      simp only [updateFirst, if_neg ha]
      rw [List.find?_cons_of_neg _ (by simp [ha])]
      exact ih h

theorem find?_updateFirst_other (cs : List Customer) (n : String) (v s : ℚ)
    (m : String) (hm : m ≠ n) :
    (updateFirst cs n v s).find? (fun c => c.name == m)
      = cs.find? (fun c => c.name == m) := by
  induction cs with
  | nil => simp [updateFirst]
  | cons a rest ih =>
    by_cases ha : a.name = n
    · have ham : ¬ a.name = m := fun he => hm (he ▸ ha)
      simp only [updateFirst, if_pos ha]
      rw [List.find?_cons_of_neg _ (by simp [ham]),
        List.find?_cons_of_neg _ (by simp [ham])]
    · simp only [updateFirst, if_neg ha]
      by_cases ham : a.name = m
      · rw [List.find?_cons_of_pos _ (by simp [ham]),
          List.find?_cons_of_pos _ (by simp [ham])]
      · rw [List.find?_cons_of_neg _ (by simp [ham]),
          List.find?_cons_of_neg _ (by simp [ham])]
        exact ih

theorem lastNamed_updateLast_self (cs : List Customer) (n : String) (v s : ℚ)
    (c0 : Customer) (h : lastNamed cs n = some c0) :
    lastNamed (updateLast cs n v s) n
      = some { c0 with veresiye := some v, satis := some s } := by
  unfold lastNamed updateLast
  rw [List.reverse_reverse]
  exact find?_updateFirst_self _ _ _ _ _ h

theorem lastNamed_updateLast_other (cs : List Customer) (n : String) (v s : ℚ)
    (m : String) (hm : m ≠ n) :
    lastNamed (updateLast cs n v s) m = lastNamed cs m := by
  unfold lastNamed updateLast
  rw [List.reverse_reverse]
  exact find?_updateFirst_other _ _ _ _ _ hm

theorem lastNamed_append_other (cs : List Customer) (cnew : Customer)
    (n : String) (h : ¬ cnew.name = n) :
    lastNamed (cs ++ [cnew]) n = lastNamed cs n := by
  unfold lastNamed
  rw [List.reverse_append]
  simp only [List.reverse_singleton, List.singleton_append]
  rw [List.find?_cons_of_neg _ (by simp [h])]

theorem lastNamed_append_self (cs : List Customer) (cnew : Customer)
    (n : String) (h : cnew.name = n) :
    lastNamed (cs ++ [cnew]) n = some cnew := by
  unfold lastNamed
  rw [List.reverse_append]
  simp only [List.reverse_singleton, List.singleton_append]
  rw [List.find?_cons_of_pos _ (by simp [h])]

theorem lastNamed_isSome_of_any (cs : List Customer) (n : String)
    (h : cs.any (fun c => c.name == n) = true) :
    ∃ c0, lastNamed cs n = some c0 ∧ c0.name = n := by
  obtain ⟨c, hc, hcn⟩ := List.any_eq_true.mp h
  have hs : (lastNamed cs n).isSome := by
    rw [lastNamed, List.find?_isSome]
    exact ⟨c, List.mem_reverse.mpr hc, hcn⟩
  obtain ⟨c0, hc0⟩ := Option.isSome_iff_exists.mp hs
  refine ⟨c0, hc0, ?_⟩
  have := List.find?_some hc0
  simpa using this

theorem any_of_lastNamed (cs : List Customer) (n : String) (c0 : Customer)
    (h : lastNamed cs n = some c0) :
    cs.any (fun c => c.name == n) = true := by
  have hmem := List.mem_of_find?_eq_some h
  have hp := List.find?_some h
  exact List.any_eq_true.mpr ⟨c0, List.mem_reverse.mp hmem, hp⟩

end Ledger

namespace Ledger

theorem lookupAgg_isSome_iff (ags : List (String × ℚ × ℚ)) (x : String) :
    (lookupAgg ags x).isSome ↔ x ∈ ags.map Prod.fst := by
  induction ags with
  | nil => simp [lookupAgg]
  | cons e rest ih =>
    obtain ⟨m, v, s⟩ := e
    by_cases hm : m = x
    · simp [lookupAgg, hm]
    · simp only [lookupAgg, if_neg hm, List.map_cons, List.mem_cons, ih]
      constructor
      · intro h
        exact Or.inr h
      · rintro (h | h)
        · exact absurd h.symm hm
        · exact h

theorem lookupAgg_eq_none_of_not_mem (ags : List (String × ℚ × ℚ)) (x : String)
    (h : x ∉ ags.map Prod.fst) : lookupAgg ags x = none := by
  cases hl : lookupAgg ags x with
  | none => rfl
  | some p => exact absurd ((lookupAgg_isSome_iff ags x).mp (by simp [hl])) h

theorem names_merge_sub (ags : List (String × ℚ × ℚ)) (cs : List Customer)
    (k : ℕ) (x : String) (hx : x ∈ cs.map Customer.name) :
    x ∈ (mergeAggregates cs k ags).1.map Customer.name := by
  induction ags generalizing cs k with
  | nil => simpa [mergeAggregates] using hx
  | cons e rest ih =>
    obtain ⟨n, v, s⟩ := e
    by_cases h : cs.any (fun c => c.name == n) = true
    · simp only [mergeAggregates, h, if_true]
      refine ih (updateLast cs n v s) k ?_
      rw [names_updateLast]
      exact hx
    · simp only [mergeAggregates, h, if_false]
      refine ih _ (k + 1) ?_
      simp only [List.map_append]
      exact List.mem_append_left _ hx

theorem keys_merge_sub (ags : List (String × ℚ × ℚ)) (cs : List Customer)
    (k : ℕ) (n : String) (hn : n ∈ ags.map Prod.fst) :
    n ∈ (mergeAggregates cs k ags).1.map Customer.name := by
  induction ags generalizing cs k with
  | nil => simp at hn
  | cons e rest ih =>
    obtain ⟨m, v, s⟩ := e
    rcases (by simpa using hn : n = m ∨ ∃ a b, (n, a, b) ∈ rest)
      with he | ⟨a, b, hab⟩
    · subst he
      by_cases h : cs.any (fun c => c.name == n) = true
      · simp only [mergeAggregates, h, if_true]
        obtain ⟨c, hc, hcn⟩ := List.any_eq_true.mp h
        refine names_merge_sub rest _ k n ?_
        rw [names_updateLast]
        exact List.mem_map.mpr ⟨c, hc, by simpa using hcn⟩
      · simp only [mergeAggregates, h, if_false]
        refine names_merge_sub rest _ (k + 1) n ?_
        simp [synthCustomer]
    · have hr : n ∈ rest.map Prod.fst := List.mem_map.mpr ⟨(n, a, b), hab, rfl⟩
      by_cases h : cs.any (fun c => c.name == m) = true
      · simp only [mergeAggregates, h, if_true]
        exact ih _ k hr
      · simp only [mergeAggregates, h, if_false]
        exact ih _ (k + 1) hr

end Ledger

namespace Ledger

theorem nodup_names_merge (ags : List (String × ℚ × ℚ)) (cs : List Customer)
    (k : ℕ) (hc : (cs.map Customer.name).Nodup)
    (ha : (ags.map Prod.fst).Nodup) :
    ((mergeAggregates cs k ags).1.map Customer.name).Nodup := by
  induction ags generalizing cs k with
  | nil => simpa [mergeAggregates] using hc
  | cons e rest ih =>
    obtain ⟨n, v, s⟩ := e
    simp only [List.map_cons, List.nodup_cons] at ha
    by_cases h : cs.any (fun c => c.name == n) = true
    · simp only [mergeAggregates, h, if_true]
      refine ih _ k ?_ ha.2
      rw [names_updateLast]
      exact hc
    · simp only [mergeAggregates, h, if_false]
      refine ih _ (k + 1) ?_ ha.2
      simp only [List.map_append]
      rw [List.nodup_append]
      refine ⟨hc, by simp, ?_⟩
      intro x hx
      simp only [List.map_cons, List.map_nil, List.mem_singleton, synthCustomer]
      intro he
      subst he
      obtain ⟨c, hcm, hcn⟩ := List.mem_map.mp hx
      exact (List.any_eq_true.not.mp h) ⟨c, hcm, by simp [hcn]⟩

end Ledger

namespace Ledger

/-- After merging, every customer whose name is an aggregate key carries
exactly that key's totals; every other customer is an untouched original. -/
theorem merge_values (ags : List (String × ℚ × ℚ)) (cs : List Customer)
    (k : ℕ) (hc : (cs.map Customer.name).Nodup)
    (ha : (ags.map Prod.fst).Nodup) :
    ∀ c ∈ (mergeAggregates cs k ags).1,
      (match lookupAgg ags c.name with
       | some (v, s) => c.veresiye = some v ∧ c.satis = some s
       | none => c ∈ cs) := by
  induction ags generalizing cs k with
  | nil =>
    intro c hmem
    simpa [mergeAggregates, lookupAgg] using hmem
  | cons e rest ih =>
    obtain ⟨n, v, s⟩ := e
    simp only [List.map_cons, List.nodup_cons] at ha
    have hlrest : lookupAgg rest n = none :=
      lookupAgg_eq_none_of_not_mem rest n ha.1
    intro c hmem
    by_cases hcn : c.name = n
    · rw [hcn, lookupAgg, if_pos rfl]
      by_cases h : cs.any (fun c => c.name == n) = true
      · simp only [mergeAggregates, h, if_true] at hmem
        have hrec := ih (updateLast cs n v s) k
          (by rw [names_updateLast]; exact hc) ha.2 c hmem
        rw [hcn, hlrest] at hrec
        have hex : n ∈ cs.map Customer.name := by
          obtain ⟨c2, hc2, hc2n⟩ := List.any_eq_true.mp h
          exact List.mem_map.mpr ⟨c2, hc2, by simpa using hc2n⟩
        exact updateLast_values cs n v s hc hex c hrec hcn
      · simp only [mergeAggregates, h, if_false] at hmem
        have hnod2 : ((cs ++ [synthCustomer n v s k]).map Customer.name).Nodup := by
          simp only [List.map_append]
          rw [List.nodup_append]
          refine ⟨hc, by simp, ?_⟩
          intro x hx
          simp only [List.map_cons, List.map_nil, List.mem_singleton, synthCustomer]
          intro he
          subst he
          obtain ⟨c2, hcm, hcn2⟩ := List.mem_map.mp hx
          exact (List.any_eq_true.not.mp h) ⟨c2, hcm, by simp [hcn2]⟩
        have hrec := ih _ (k + 1) hnod2 ha.2 c hmem
        rw [hcn, hlrest] at hrec
        rcases List.mem_append.mp hrec with hin | hin
        · exfalso
          exact (List.any_eq_true.not.mp h) ⟨c, hin, by simp [hcn]⟩
        · have he : c = synthCustomer n v s k := by simpa using hin
          rw [he]
          exact ⟨rfl, rfl⟩
    · rw [lookupAgg, if_neg fun he => hcn he.symm]
      by_cases h : cs.any (fun c => c.name == n) = true
      · simp only [mergeAggregates, h, if_true] at hmem
        have hrec := ih (updateLast cs n v s) k
          (by rw [names_updateLast]; exact hc) ha.2 c hmem
        cases hl : lookupAgg rest c.name with
        | some p =>
          rw [hl] at hrec
          exact hrec
        | none =>
          rw [hl] at hrec
          rcases mem_updateLast cs n v s c hrec with hin | hin
          · exact hin
          · exact absurd hin.1 hcn
      · simp only [mergeAggregates, h, if_false] at hmem
        have hnod2 : ((cs ++ [synthCustomer n v s k]).map Customer.name).Nodup := by
          simp only [List.map_append]
          rw [List.nodup_append]
          refine ⟨hc, by simp, ?_⟩
          intro x hx
          simp only [List.map_cons, List.map_nil, List.mem_singleton, synthCustomer]
          intro he
          subst he
          obtain ⟨c2, hcm, hcn2⟩ := List.mem_map.mp hx
          exact (List.any_eq_true.not.mp h) ⟨c2, hcm, by simp [hcn2]⟩
        have hrec := ih _ (k + 1) hnod2 ha.2 c hmem
        cases hl : lookupAgg rest c.name with
        | some p =>
          rw [hl] at hrec
          exact hrec
        | none =>
          rw [hl] at hrec
          rcases List.mem_append.mp hrec with hin | hin
          · exact hin
          · exfalso
            have he : c = synthCustomer n v s k := by simpa using hin
            exact hcn (by rw [he]; rfl)

end Ledger

namespace Ledger

/-- Merging aggregate entries for other names does not move or change the
last customer with a given name. -/
theorem merge_lastNamed_frame (ags : List (String × ℚ × ℚ))
    (cs : List Customer) (k : ℕ) (n : String)
    (hn : n ∉ ags.map Prod.fst) :
    lastNamed (mergeAggregates cs k ags).1 n = lastNamed cs n := by
  induction ags generalizing cs k with
  | nil => simp [mergeAggregates]
  | cons e rest ih =>
    obtain ⟨m, v, s⟩ := e
    simp only [List.map_cons, List.mem_cons, not_or] at hn
    by_cases h : cs.any (fun c => c.name == m) = true
    · simp only [mergeAggregates, h, if_true]
      rw [ih _ k (by simpa using hn.2)]
      exact lastNamed_updateLast_other cs m v s n hn.1
    · simp only [mergeAggregates, h, Bool.false_eq_true, if_false]
      rw [ih _ (k + 1) (by simpa using hn.2)]
      refine lastNamed_append_other cs _ n ?_
      simp only [synthCustomer]
      exact fun he => hn.1 he.symm

/-- After merging, the last customer bearing an aggregate key's name holds
exactly that key's totals. -/
theorem merge_lastNamed_values (ags : List (String × ℚ × ℚ))
    (cs : List Customer) (k : ℕ) (ha : (ags.map Prod.fst).Nodup) :
    ∀ n v s, (n, v, s) ∈ ags →
      ∃ c0, lastNamed (mergeAggregates cs k ags).1 n = some c0 ∧
        c0.veresiye = some v ∧ c0.satis = some s := by
  induction ags generalizing cs k with
  | nil => intro n v s hm; simp at hm
  | cons e rest ih =>
    obtain ⟨m, v0, s0⟩ := e
    simp only [List.map_cons, List.nodup_cons] at ha
    intro n v s hm
    rcases List.mem_cons.mp hm with he | he
    · rw [Prod.mk.injEq, Prod.mk.injEq] at he
      obtain ⟨h1, h2, h3⟩ := he
      subst h1
      subst h2
      subst h3
      by_cases h : cs.any (fun c => c.name == n) = true
      · simp only [mergeAggregates, h, if_true]
        obtain ⟨c0, hc0, hc0n⟩ := lastNamed_isSome_of_any cs n h
        rw [merge_lastNamed_frame rest _ k n ha.1,
          lastNamed_updateLast_self cs n v s c0 hc0]
        exact ⟨_, rfl, rfl, rfl⟩
      · simp only [mergeAggregates, h, Bool.false_eq_true, if_false]
        rw [merge_lastNamed_frame rest _ (k + 1) n ha.1,
          lastNamed_append_self cs _ n rfl]
        exact ⟨_, rfl, rfl, rfl⟩
    · by_cases h : cs.any (fun c => c.name == m) = true
      · simp only [mergeAggregates, h, if_true]
        exact ih _ k ha.2 n v s he
      · simp only [mergeAggregates, h, Bool.false_eq_true, if_false]
        exact ih _ (k + 1) ha.2 n v s he

/-- A customer list on which every aggregate entry's update is a no-op is a
fixed point of the merge. -/
theorem merge_fixed (ags : List (String × ℚ × ℚ)) (cs : List Customer)
    (j : ℕ)
    (h : ∀ n v s, (n, v, s) ∈ ags →
      cs.any (fun c => c.name == n) = true ∧ updateLast cs n v s = cs) :
    mergeAggregates cs j ags = (cs, j) := by
  induction ags with
  | nil => rfl
  | cons e rest ih =>
    obtain ⟨n, v, s⟩ := e
    obtain ⟨h1, h2⟩ := h n v s (List.mem_cons_self _ _)
    simp only [mergeAggregates, h1, if_true, h2]
    exact ih fun n2 v2 s2 hm => h n2 v2 s2 (List.mem_cons_of_mem _ hm)

theorem names_coerceNums (cs : List Customer) :
    (coerceNums cs).map Customer.name = cs.map Customer.name := by
  simp [coerceNums, coerceCustomer]

theorem coerceNums_idem (cs : List Customer) :
    coerceNums (coerceNums cs) = coerceNums cs := by
  simp [coerceNums, coerceCustomer]

theorem lastNamed_coerceNums (cs : List Customer) (n : String) :
    lastNamed (coerceNums cs) n = (lastNamed cs n).map coerceCustomer := by
  unfold lastNamed coerceNums
  rw [← List.map_reverse]
  induction cs.reverse with
  | nil => simp
  | cons a rest ih =>
    by_cases ha : a.name = n
    · rw [List.map_cons, List.find?_cons_of_pos _ (by simp [ha, coerceCustomer]),
        List.find?_cons_of_pos _ (by simp [ha])]
      rfl
    · rw [List.map_cons, List.find?_cons_of_neg _ (by simp [ha, coerceCustomer]),
        List.find?_cons_of_neg _ (by simp [ha])]
      exact ih

end Ledger

namespace Ledger

/-- Unfolding equation for the Aggregator's customer-list component. -/
theorem updateCustomerAggregates_fst (ts : List Transaction)
    (cs : List Customer) (k : ℕ) :
    (updateCustomerAggregates ts cs k).1
      = coerceNums (mergeAggregates cs k (buildAggregates ts)).1 := rfl

/-- C1: after the Aggregator recompute, every customer name appearing in the
transaction list has a customer record, and every record with that name has
`veresiye` equal to the sum of `total` over that customer's `VERESİYE`
transactions and `satis` equal to the sum over its `SATIŞ`/`İKİSİDE`/`ÖDEME`
transactions; other types (e.g. `İADE`) contribute to neither.  Hypotheses:
customer fields are non-empty (no unnamed-sentinel aliasing) and the customer
list has no exact duplicate names. -/
theorem c1_aggregate_consistency (ts : List Transaction) (cs : List Customer)
    (k : ℕ) (name : String)
    (hnod : (cs.map Customer.name).Nodup)
    (hne : ∀ t ∈ ts, t.customer ≠ "")
    (hname : name ∈ ts.map Transaction.customer) :
    (∃ c ∈ (updateCustomerAggregates ts cs k).1, c.name = name) ∧
    ∀ c ∈ (updateCustomerAggregates ts cs k).1, c.name = name →
      c.veresiye = some (veresiyeSum ts name) ∧
      c.satis = some (satisSum ts name) := by
  have hanod := nodup_keys_buildAggregates ts
  have hkeys : name ∈ (buildAggregates ts).map Prod.fst := by
    rw [mem_keys_buildAggregates]
    obtain ⟨t, ht, htn⟩ := List.mem_map.mp hname
    refine List.mem_map.mpr ⟨t, ht, ?_⟩
    have hn0 : ¬ name = "" := htn ▸ hne t ht
    simp only [txnName, htn, if_neg hn0]
  have hlook : lookupAgg (buildAggregates ts) name
      = some (veresiyeSum ts name, satisSum ts name) := by
    rw [lookupAgg_buildAggregates,
      if_pos ((mem_keys_buildAggregates ts name).mp hkeys),
      vSumName_eq_veresiyeSum ts name hne, sSumName_eq_satisSum ts name hne]
  constructor
  · have hmem := keys_merge_sub (buildAggregates ts) cs k name hkeys
    obtain ⟨c0, hc0, hc0n⟩ := List.mem_map.mp hmem
    refine ⟨coerceCustomer c0, ?_, hc0n⟩
    rw [updateCustomerAggregates_fst]
    exact List.mem_map.mpr ⟨c0, hc0, rfl⟩
  · intro c hc hcn
    rw [updateCustomerAggregates_fst] at hc
    obtain ⟨c0, hc0, hcc⟩ := List.mem_map.mp hc
    have hc0n : c0.name = name := by rw [← hcn, ← hcc]; rfl
    have hval := merge_values (buildAggregates ts) cs k hnod hanod c0 hc0
    rw [hc0n, hlook] at hval
    rw [← hcc]
    constructor
    · simp [coerceCustomer, hval.1]
    · simp [coerceCustomer, hval.2]

/-- C9: running the Aggregator recompute twice in a row on the same
transaction list yields the very same customer list the first run produced —
no aggregate value changes and no additional customer record is created. -/
theorem c9_recompute_idempotent (ts : List Transaction) (cs : List Customer)
    (k j : ℕ) :
    updateCustomerAggregates ts (updateCustomerAggregates ts cs k).1 j
      = ((updateCustomerAggregates ts cs k).1, j) := by
  have hanod := nodup_keys_buildAggregates ts
  have hfix : mergeAggregates
      (coerceNums (mergeAggregates cs k (buildAggregates ts)).1) j
      (buildAggregates ts)
      = (coerceNums (mergeAggregates cs k (buildAggregates ts)).1, j) := by
    apply merge_fixed
    intro n v s hm
    obtain ⟨c0, hc0, hv, hs⟩ :=
      merge_lastNamed_values (buildAggregates ts) cs k hanod n v s hm
    have hc2 : lastNamed
        (coerceNums (mergeAggregates cs k (buildAggregates ts)).1) n
        = some (coerceCustomer c0) := by
      rw [lastNamed_coerceNums, hc0]
      rfl
    constructor
    · exact any_of_lastNamed _ n _ hc2
    · apply updateLast_eq_self
      intro c hc
      rw [hc2] at hc
      obtain rfl := Option.some.inj hc
      constructor
      · simp [coerceCustomer, hv]
      · simp [coerceCustomer, hs]
  show (coerceNums (mergeAggregates
      (coerceNums (mergeAggregates cs k (buildAggregates ts)).1) j
      (buildAggregates ts)).1,
    (mergeAggregates
      (coerceNums (mergeAggregates cs k (buildAggregates ts)).1) j
      (buildAggregates ts)).2)
    = ((updateCustomerAggregates ts cs k).1, j)
  rw [hfix]
  rw [updateCustomerAggregates_fst]
  rw [coerceNums_idem]

/-- C8 amended: the Aggregator preserves exact-name uniqueness of the
customer list (synthesis only adds names with no exact match); it does NOT
preserve case-insensitive uniqueness (see the counterexample). -/
theorem c8_exact_uniqueness_amended (ts : List Transaction)
    (cs : List Customer) (k : ℕ) (hnod : (cs.map Customer.name).Nodup) :
    (((updateCustomerAggregates ts cs k).1.map Customer.name)).Nodup := by
  rw [updateCustomerAggregates_fst, names_coerceNums]
  exact nodup_names_merge (buildAggregates ts) cs k hnod
    (nodup_keys_buildAggregates ts)

/-- C8 counterexample: from a ledger whose customer names are
case-insensitively unique ("Ahmet"), one recompute over a transaction whose
customer is "ahmet" synthesizes a second record differing only in case —
the aggregator matches names case-sensitively, so the claimed invariant is
not preserved. -/
theorem c8_case_insensitive_uniqueness_counterexample :
    caseUnique ([sampleCustomer].map Customer.name) ∧
    ((updateCustomerAggregates [{ sampleTxn with customer := "ahmet" }]
        [sampleCustomer] 0).1.map Customer.name = ["Ahmet", "ahmet"]) ∧
    ¬ caseUnique ((updateCustomerAggregates
        [{ sampleTxn with customer := "ahmet" }]
        [sampleCustomer] 0).1.map Customer.name) := by
  refine ⟨?_, by decide, ?_⟩
  · simp [caseUnique]
  · intro hp
    have he : (updateCustomerAggregates [{ sampleTxn with customer := "ahmet" }]
        [sampleCustomer] 0).1.map Customer.name = ["Ahmet", "ahmet"] := by decide
    rw [he, caseUnique] at hp
    have := (List.pairwise_cons.mp hp).1 "ahmet" (by simp)
    exact this (by decide)

/-- Witness for C8 amended at the counterexample input: exact names stay
duplicate-free even as case-insensitive uniqueness breaks. -/
theorem c8_exact_uniqueness_amended_witness :
    (((updateCustomerAggregates [{ sampleTxn with customer := "ahmet" }]
        [sampleCustomer] 0).1.map Customer.name)).Nodup :=
  c8_exact_uniqueness_amended [{ sampleTxn with customer := "ahmet" }]
    [sampleCustomer] 0 (by decide)

end Ledger

namespace Ledger

/-- Witness for C1 at the §8 scenario: the recompute gives Ahmet the claimed
sums. -/
theorem c1_aggregate_consistency_witness :
    (∃ c ∈ (updateCustomerAggregates [sampleTxn] [sampleCustomer] 0).1,
      c.name = "Ahmet") ∧
    ∀ c ∈ (updateCustomerAggregates [sampleTxn] [sampleCustomer] 0).1,
      c.name = "Ahmet" →
      c.veresiye = some (veresiyeSum [sampleTxn] "Ahmet") ∧
      c.satis = some (satisSum [sampleTxn] "Ahmet") :=
  c1_aggregate_consistency [sampleTxn] [sampleCustomer] 0 "Ahmet"
    (by decide) (by decide) (by decide)

end Ledger
